import Mathlib

/-!
Verification development for the content-marketing job pipeline.

The definitions below are a shallow embedding of the repository's core:
`app/domain/models.py` (the Job record), `app/api/routes_jobs.py` (the
retry and cancel endpoints), `app/workers/queue.py` (the single-worker
loop), and `app/services/orchestrator.py` (the stage runner, the
reviewer and the key-message extraction heuristic), together with the
per-target fan-out of `app/services/agents.py`.

External collaborators (ingestion, the text/visual/chart/shorts
providers, and the probing of videos) are modelled by an environment
record carrying each collaborator's outcome for the run, exactly at the
interface the orchestrator consumes: a collaborator either returns its
(artifacts, warnings) pair or raises, which the embedding represents
with `Except`/`Option` values.  Durable-store updates are modelled as an
explicit trace of field-level updates (`JobUpdate`) folded over the job
record, mirroring `JobOrchestrator._update_job`.
-/

namespace CMT

/-- Job status enum, from `app/domain/models.py` / the API layer. -/
inductive Status where
  | PENDING
  | RUNNING
  | SUCCEEDED
  | PARTIAL_SUCCESS
  | FAILED
  | CANCELED
deriving DecidableEq, Repr

/-- The four terminal statuses (`routes_jobs.cancel_job`'s terminal set). -/
def Status.isTerminal : Status → Bool
  | .SUCCEEDED => true
  | .PARTIAL_SUCCESS => true
  | .FAILED => true
  | .CANCELED => true
  | _ => false

/-- Mutable run state of a `Job` row (`app/domain/models.py`).  Timestamps
are abstracted to `Option Nat` instants; identity and request fields that
no claim touches are omitted. -/
structure JobRecord where
  status : Status
  current_stage : String
  progress : Nat
  error_message : Option String
  retry_count : Nat
  cancel_requested : Bool
  started_at : Option Nat
  finished_at : Option Nat
deriving DecidableEq, Repr

/-- `POST /jobs/{id}/cancel` (`routes_jobs.cancel_job`): on a terminal job
it returns the job's own status and changes nothing; otherwise it sets
only `cancel_requested` and answers with the literal status `CANCELED`.
Returns (stored record after the call, response-body status). -/
def cancel_job (j : JobRecord) : JobRecord × Status :=
  if j.status = .SUCCEEDED ∨ j.status = .FAILED ∨ j.status = .PARTIAL_SUCCESS
      ∨ j.status = .CANCELED then
    (j, j.status)
  else
    ({ j with cancel_requested := true }, .CANCELED)

/-- `POST /jobs/{id}/retry` (`routes_jobs.retry_job`).  Returns the stored
record after the call plus the HTTP error detail when the request is
rejected (`none` = success). -/
def retry_job (j : JobRecord) : JobRecord × Option String :=
  if ¬(j.status = .FAILED ∨ j.status = .PARTIAL_SUCCESS) then
    (j, some "only failed or partial jobs can be retried")
  else if j.retry_count ≥ 1 then
    (j, some "retry limit reached")
  else
    ({ j with
        retry_count := j.retry_count + 1
        status := .PENDING
        current_stage := "QUEUED"
        progress := 0
        error_message := none
        started_at := none
        finished_at := none
        cancel_requested := false }, none)

/-- `JobQueue._run` (`app/workers/queue.py`).  The processor call is
wrapped in `try ... finally: self._queue.task_done()` with no `except`:
`task_done` runs, but an exception escaping the processor propagates out
of the loop body and terminates the worker thread.  The model returns
the list of items the loop attempted, in order, together with the
escaped exception (if any); items after the failing one are never
attempted. -/
def runLoop (proc : String → Except String Unit) : List String → List String × Option String
  | [] => ([], none)
  | id :: rest =>
    match proc id with
    | .ok _ =>
      let r := runLoop proc rest
      (id :: r.1, r.2)
    | .error e => ([id], some e)

/-! ### Orchestrator: target normalization and required artifacts -/

/-- `lower` on a char list; models Python `str.lower()` (the repository
only lowercases ASCII/Korean text, where `Char.toLower` agrees). -/
def lowerChars (l : List Char) : List Char := l.map Char.toLower

/-- `str.lower()` on a string. -/
def lowerStr (s : String) : String := String.mk (lowerChars s.data)

/-- Drop whitespace at both ends of a char list. -/
def trimChars (l : List Char) : List Char :=
  ((l.dropWhile Char.isWhitespace).reverse.dropWhile Char.isWhitespace).reverse

/-- Python `str.strip()`. -/
def pyStrip (s : String) : String := String.mk (trimChars s.data)

/-- One raw target's contribution in `orchestrator._normalize_targets`:
strip + lowercase, drop empties, expand the legacy aliases. -/
def expandTarget (t : String) : List String :=
  let n := lowerStr (pyStrip t)
  if n = "" then []
  else if n = "visuals" then ["card-news", "thumbnail"]
  else if n = "visual-card-news" then ["card-news"]
  else if n = "visual-thumbnail" then ["thumbnail"]
  else if n = "charts" then ["chart"]
  else [n]

def dedupFirstGo (seen : List String) : List String → List String
  | [] => []
  | x :: xs => if seen.contains x then dedupFirstGo seen xs else x :: dedupFirstGo (x :: seen) xs

/-- `list(dict.fromkeys(expanded))`: deduplicate keeping first occurrences. -/
def dedupFirst (l : List String) : List String := dedupFirstGo [] l

/-- `orchestrator._normalize_targets`. -/
def _normalize_targets (targets : List String) : List String :=
  dedupFirst (targets.map expandTarget).flatten

/-- `agents.TEXT_TARGETS` (set literal; membership tests only). -/
def TEXT_TARGETS : List String :=
  ["newsletter", "blog", "linkedin", "threads", "youtube-script", "shorts-scripts"]

/-- `orchestrator._required_paths_for_targets`. -/
def _required_paths_for_targets (targets : List String) : List String :=
  ["brief.md"]
  ++ (if targets.contains "newsletter" then ["newsletter.md"] else [])
  ++ (if targets.contains "blog" then ["blog.md"] else [])
  ++ (if targets.contains "linkedin" then ["linkedin.md"] else [])
  ++ (if targets.contains "youtube-script" then ["youtube-script.md"] else [])
  ++ (if targets.contains "threads" then ["threads/thread-01.md"] else [])
  ++ (if targets.contains "shorts-scripts" then ["shorts-scripts/shorts-01.md"] else [])
  ++ (if targets.contains "thumbnail" then ["visuals/thumbnail.png"] else [])
  ++ (if targets.contains "card-news" then ["visuals/card-news/slide-01.png"] else [])
  ++ (if targets.contains "chart" then ["charts/overview.png", "charts/trend.png"] else [])
  ++ (if targets.contains "shorts-videos" then ["shorts-videos/shorts-01.mp4"] else [])

/-- Two-digit 1-based index, as in `f"{index + 1:02d}"`. -/
def pad2 (n : Nat) : String := if n < 10 then "0" ++ toString n else toString n

/-- Artifact relative paths written by `agents.TextAgentService._generate_target`
for one successful target. -/
def targetFiles : String → List String
  | "newsletter" => ["newsletter.md"]
  | "blog" => ["blog.md"]
  | "linkedin" => ["linkedin.md"]
  | "youtube-script" => ["youtube-script.md"]
  | "threads" => (List.range 10).map (fun i => "threads/thread-" ++ pad2 (i + 1) ++ ".md")
  | "shorts-scripts" => (List.range 3).map (fun i => "shorts-scripts/shorts-" ++ pad2 (i + 1) ++ ".md")
  | _ => []

/-- `agents.TextAgentService.generate_text_assets`: fan out over the
selected text targets; each target either writes its artifacts or raises,
and a raising target is caught and recorded as `f"{target}: {exc}"`
without affecting the siblings (`as_completed` gathering).  `textErr t`
is the oracle for target `t`'s outcome (`none` = success).  The pool's
completion order is modelled as submission order. -/
def generate_text_assets (textErr : String → Option String) (targets : List String) :
    List String × List String :=
  let selected := targets.filter (fun t => TEXT_TARGETS.contains t)
  (((selected.filter (fun t => textErr t = none)).map targetFiles).flatten,
   selected.filterMap (fun t => (textErr t).map (fun m => t ++ ": " ++ m)))

/-! ### Reviewer (`JobOrchestrator._run_reviewer`) -/

/-- State of the job's output tree as the reviewer observes it.
`existing` are the relative paths present on disk; the remaining fields
describe the `visuals/`, `charts/` and `shorts-videos/` directories
(`thumbSize`/chart sizes in pixels, probe results as
(width, height, duration-seconds), duration as a rational). -/
structure ReviewFS where
  existing : List String
  visualsDirExists : Bool
  thumbSize : Option (Nat × Nat)
  cardNewsCount : Nat
  chartsDirExists : Bool
  chartFiles : List (String × Nat × Nat)
  shortsDirExists : Bool
  shortsClips : List (String × Option (Nat × Nat × ℚ))

/-- Required-artifact existence walk (first report section).  Returns
(report lines, review failures). -/
def requiredSection (existing : List String) (targets : List String) :
    List String × List String :=
  let required := _required_paths_for_targets targets
  ((required.map fun rel =>
      if existing.contains rel then s!"- [OK] {rel}" else s!"- [FAIL] {rel}"),
   (required.filter fun rel => ¬ existing.contains rel).map
      (fun rel => "missing artifact: " ++ rel))

/-- Thumbnail + card-news checks (guarded by the visuals directory
existing, exactly as in the source). -/
def visualSection (fs : ReviewFS) (targets : List String) :
    List String × List String :=
  if (targets.contains "card-news" || targets.contains "thumbnail") && fs.visualsDirExists then
    let thumbPart :=
      if targets.contains "thumbnail" then
        match fs.thumbSize with
        | some wh =>
          if wh ≠ (1280, 720) then
            ([s!"- [FAIL] thumbnail size is ({wh.1}, {wh.2})"],
             ["thumbnail resolution mismatch (expected 1280x720)"])
          else (["- [OK] thumbnail is 1280x720"], [])
        | none =>
          (["- [FAIL] missing thumbnail.png"], ["missing artifact: visuals/thumbnail.png"])
      else ([], [])
    let cardPart :=
      if targets.contains "card-news" then
        if ¬ (5 ≤ fs.cardNewsCount ∧ fs.cardNewsCount ≤ 7) then
          ([s!"- [FAIL] card-news slide count={fs.cardNewsCount}"],
           [s!"card-news slide count mismatch ({fs.cardNewsCount})"])
        else ([s!"- [OK] card-news slide count={fs.cardNewsCount}"], [])
      else ([], [])
    (thumbPart.1 ++ cardPart.1, thumbPart.2 ++ cardPart.2)
  else ([], [])

/-- Chart count + per-file resolution checks. -/
def chartSection (fs : ReviewFS) (targets : List String) :
    List String × List String :=
  if targets.contains "chart" && fs.chartsDirExists then
    let countPart :=
      if fs.chartFiles.length < 2 then
        ([s!"- [FAIL] charts count={fs.chartFiles.length}"],
         [s!"charts count mismatch ({fs.chartFiles.length})"])
      else ([s!"- [OK] charts count={fs.chartFiles.length}"], [])
    let eachParts := fs.chartFiles.map fun c =>
      if (c.2.1, c.2.2) ≠ (1280, 720) then
        ([s!"- [FAIL] {c.1} size is ({c.2.1}, {c.2.2})"],
         [c.1 ++ " resolution mismatch (expected 1280x720)"])
      else ([s!"- [OK] {c.1} is 1280x720"], [])
    (countPart.1 ++ (eachParts.map Prod.fst).flatten,
     countPart.2 ++ (eachParts.map Prod.snd).flatten)
  else ([], [])

/-- Per-clip check of the shorts review loop.  A clip whose probe is
unavailable (`none`) yields only a `[WARN]` report line and no failure;
a probed clip must be vertical (height > width, width ≥ 720) and at most
60.5 seconds long.  (The Python `{duration:.2f}` report formatting is
abstracted to the rational's `toString`; no checked property reads those
digits.) -/
def clipCheck (c : String × Option (Nat × Nat × ℚ)) : List String × List String :=
  match c.2 with
  | none => (["- [WARN] ffprobe unavailable or failed: " ++ c.1], [])
  | some whd =>
    let w := whd.1
    let h := whd.2.1
    let d := whd.2.2
    if ¬ (h > w ∧ w ≥ 720) then
      ([s!"- [FAIL] {c.1} resolution={w}x{h}"], [c.1 ++ " is not vertical video"])
    else if d > (121 : ℚ) / 2 then
      ([s!"- [FAIL] {c.1} duration={d}"], [c.1 ++ " duration exceeds 60s"])
    else
      ([s!"- [OK] {c.1} {w}x{h}, duration={d}s"], [])

/-- Shorts-directory review loop. -/
def shortsSection (fs : ReviewFS) (targets : List String) :
    List String × List String :=
  if targets.contains "shorts-videos" && fs.shortsDirExists then
    let parts := fs.shortsClips.map clipCheck
    ((parts.map Prod.fst).flatten, (parts.map Prod.snd).flatten)
  else ([], [])

/-- `JobOrchestrator._run_reviewer`: builds the report and the reviewer's
own failures from the artifact tree and the accumulated stage failures
and warnings.  Returns (report lines, review failures); writing
`review-report.md` is the caller's concern. -/
def runReviewer (fs : ReviewFS) (targets : List String)
    (failures warnings : List String) : List String × List String :=
  let req := requiredSection fs.existing targets
  let vis := visualSection fs targets
  let cha := chartSection fs targets
  let sho := shortsSection fs targets
  let reviewFailures := req.2 ++ vis.2 ++ cha.2 ++ sho.2
  let header := ["# review-report.md", "", "## 상태 요약",
    s!"- 현재 실패 수: {failures.length}", s!"- 경고 수: {warnings.length}", "",
    "## 필수 산출물 검증"]
  let warnPart := if warnings ≠ [] then ["", "## 경고"] ++ warnings.map (fun w => "- " ++ w) else []
  let failPart :=
    if failures ≠ [] ∨ reviewFailures ≠ [] then
      ["", "## 실패/누락"] ++ (failures ++ reviewFailures).map (fun f => "- " ++ f)
    else []
  (header ++ req.1 ++ vis.1 ++ cha.1 ++ sho.1 ++ warnPart ++ failPart, reviewFailures)

/-! ### The stage runner (`JobOrchestrator.process_job`) -/

/-- Outcome of `ingest_source` on success. -/
structure Ingestion where
  title : String
  text : String
  warnings : List String
  video_path : Option String

/-- One collaborator environment for a run: each external call's outcome
(`Except` = returns or raises), the cancel flag's behaviour, and the
state of the image/video artifact directories as the reviewer will see
them.  `cancelFrom = some c` means the durable `cancel_requested` flag
reads true from checkpoint `c` onwards (it was set between checkpoint
`c - 1` and checkpoint `c`); `none` means it is never set during the
run. -/
structure Env where
  targetsRaw : List String
  mock_mode : Bool
  ingestion : Except String Ingestion
  planner : Except String Unit
  textStageErr : Option String
  textErr : String → Option String
  visual : Except String (List String × List String)
  chart : Except String (List String × List String)
  shorts : Except String (List String × List String)
  cancelFrom : Option Nat
  fsVisualsDirExists : Bool
  fsThumbSize : Option (Nat × Nat)
  fsCardNewsCount : Nat
  fsChartsDirExists : Bool
  fsChartFiles : List (String × Nat × Nat)
  fsShortsDirExists : Bool
  fsShortsClips : List (String × Option (Nat × Nat × ℚ))

/-- What `self._cancel_if_requested(job_id)` reads at checkpoint `k`
(checkpoints are numbered 0..6: before INGESTION, PLANNER, TEXT_AGENTS,
VISUAL, CHART, SHORTS, REVIEW). -/
def Env.cancelAt (env : Env) (k : Nat) : Bool :=
  match env.cancelFrom with
  | none => false
  | some c => c ≤ k

/-- The post-ingestion graceful degradation: drop `shorts-videos` when the
source has no video and mock mode is off. -/
def Env.dropShorts (env : Env) (ing : Ingestion) : Bool :=
  (_normalize_targets env.targetsRaw).contains "shorts-videos"
    && ing.video_path.isNone && !env.mock_mode

/-- The effective target list after normalization and the shorts drop. -/
def Env.effective (env : Env) (ing : Ingestion) : List String :=
  if env.dropShorts ing then
    (_normalize_targets env.targetsRaw).filter (fun t => t ≠ "shorts-videos")
  else _normalize_targets env.targetsRaw

def shortsSkipWarning : String :=
  "입력 소스에 원본 영상이 없어 shorts-videos 생성을 건너뛰었습니다."

/-- One field-level `_update_job` commit; `none` leaves a field alone.
`error_message = some v` persists `v` (so `some none` clears it). -/
structure JobUpdate where
  status : Option Status
  stage : Option String
  progress : Option Nat
  error_message : Option (Option String)
  setStarted : Bool
  setFinished : Bool
deriving DecidableEq, Repr

/-- The run-start update: RUNNING / INGESTION / 5, clears the error. -/
def startUpdate : JobUpdate := ⟨some .RUNNING, some "INGESTION", some 5, some none, true, false⟩

/-- Stage-boundary progress update (status untouched). -/
def stageUpdate (s : String) (p : Nat) : JobUpdate := ⟨none, some s, some p, none, false, false⟩

/-- `_cancel_if_requested`'s persist: CANCELED / DONE / 100 (error untouched). -/
def cancelUpdate : JobUpdate := ⟨some .CANCELED, some "DONE", some 100, none, false, true⟩

/-- `_fail_job`'s persist. -/
def failUpdate (msg : String) : JobUpdate :=
  ⟨some .FAILED, some "DONE", some 100, some (some msg), false, true⟩

/-- The finalization persist. -/
def finalUpdate (st : Status) (err : Option String) : JobUpdate :=
  ⟨some st, some "DONE", some 100, some err, false, true⟩

/-- Python `"\n".join`. -/
def joinNL : List String → String
  | [] => ""
  | [x] => x
  | x :: xs => x ++ "\n" ++ joinNL xs

/-- The finalization update computed from the accumulated failures:
PARTIAL_SUCCESS and the first 20 failures newline-joined when any failure
was recorded, SUCCEEDED with no message otherwise. -/
def finalize (failsAll : List String) : JobUpdate :=
  finalUpdate (if failsAll = [] then Status.SUCCEEDED else .PARTIAL_SUCCESS)
    (if failsAll = [] then none else some (joinNL (failsAll.take 20)))

/-- The stage-boundary updates of a full run, in order (the INGESTION
stage marker is part of the start update). -/
def stageUps : List JobUpdate :=
  [stageUpdate "PLANNER" 20, stageUpdate "TEXT_AGENTS" 40, stageUpdate "VISUAL" 60,
   stageUpdate "CHART" 72, stageUpdate "SHORTS" 82, stageUpdate "REVIEW" 92]

/-- Apply one committed update to the durable record (timestamps are
abstract instants). -/
def applyUpdate (j : JobRecord) (u : JobUpdate) : JobRecord :=
  { j with
      status := u.status.getD j.status
      current_stage := u.stage.getD j.current_stage
      progress := u.progress.getD j.progress
      error_message := u.error_message.getD j.error_message
      started_at := if u.setStarted then some 0 else j.started_at
      finished_at := if u.setFinished then some 0 else j.finished_at }

/-- TEXT_AGENTS stage body, including the orchestrator's outer
`except` that records `TEXT_AGENTS 실패: ...` if the whole fan-out
raises.  Returns (written artifacts, failures). -/
def textStep (env : Env) (eff : List String) : List String × List String :=
  match env.textStageErr with
  | some e => ([], ["TEXT_AGENTS 실패: " ++ e])
  | none => generate_text_assets env.textErr eff

/-- VISUAL stage body: runs only when card-news or thumbnail is selected;
an exception is caught as a `VISUAL 실패: ...` entry.  Returns
(artifacts, warnings, failures). -/
def visualStep (env : Env) (eff : List String) :
    List String × List String × List String :=
  if eff.contains "card-news" || eff.contains "thumbnail" then
    match env.visual with
    | .ok aw => (aw.1, aw.2, [])
    | .error e => ([], [], ["VISUAL 실패: " ++ e])
  else ([], [], [])

/-- CHART stage body. -/
def chartStep (env : Env) (eff : List String) :
    List String × List String × List String :=
  if eff.contains "chart" then
    match env.chart with
    | .ok aw => (aw.1, aw.2, [])
    | .error e => ([], [], ["CHART 실패: " ++ e])
  else ([], [], [])

/-- SHORTS stage body. -/
def shortsStep (env : Env) (eff : List String) :
    List String × List String × List String :=
  if eff.contains "shorts-videos" then
    match env.shorts with
    | .ok aw => (aw.1, aw.2, [])
    | .error e => ([], [], ["SHORTS 실패: " ++ e])
  else ([], [], [])

/-- The artifact tree handed to the reviewer. -/
def Env.reviewFS (env : Env) (files : List String) : ReviewFS :=
  ⟨files, env.fsVisualsDirExists, env.fsThumbSize, env.fsCardNewsCount,
   env.fsChartsDirExists, env.fsChartFiles, env.fsShortsDirExists, env.fsShortsClips⟩

/-- Files, warnings and failures accumulated by the generation stages of
a run that reaches REVIEW (brief + text + visual + chart + shorts). -/
def Env.preReview (env : Env) (ing : Ingestion) :
    List String × List String × List String :=
  let eff := env.effective ing
  let warnings0 := ing.warnings ++ (if env.dropShorts ing then [shortsSkipWarning] else [])
  let tp := textStep env eff
  let vp := visualStep env eff
  let cp := chartStep env eff
  let sp := shortsStep env eff
  (["brief.md"] ++ tp.1 ++ vp.1 ++ cp.1 ++ sp.1,
   warnings0 ++ vp.2.1 ++ cp.2.1 ++ sp.2.1,
   tp.2 ++ vp.2.2 ++ cp.2.2 ++ sp.2.2)

/-- The complete failures list of a run that reaches finalization: every
stage's failures followed by the reviewer's own. -/
def Env.allFailures (env : Env) (ing : Ingestion) : List String :=
  let pre := env.preReview ing
  pre.2.2 ++ (runReviewer (env.reviewFS pre.1) (env.effective ing) pre.2.2 pre.2.1).2

/-- Result of one `process_job` run: the committed update trace, the
accumulated failures (all stages' plus the reviewer's), the artifact
relative paths written, and the review report's lines. -/
structure RunResult where
  updates : List JobUpdate
  failures : List String
  files : List String
  report : List String

/-- `JobOrchestrator.process_job`, stage by stage: the start persist, the
cancellation checkpoints, fatal INGESTION/PLANNER failures via
`_fail_job`, the caught per-stage failures, the reviewer, and the
finalization persist. -/
def processJob (env : Env) : RunResult :=
  let u0 := startUpdate
  if env.cancelAt 0 then ⟨[u0, cancelUpdate], [], [], []⟩ else
  match env.ingestion with
  | .error e => ⟨[u0, failUpdate ("INGESTION 실패: " ++ e)], [], [], []⟩
  | .ok ing =>
    let eff := env.effective ing
    let warnings0 := ing.warnings ++ (if env.dropShorts ing then [shortsSkipWarning] else [])
    if env.cancelAt 1 then ⟨[u0, cancelUpdate], [], [], []⟩ else
    let u1 := stageUpdate "PLANNER" 20
    match env.planner with
    | .error e => ⟨[u0, u1, failUpdate ("PLANNER 실패: " ++ e)], [], [], []⟩
    | .ok _ =>
      let files1 := ["brief.md"]
      if env.cancelAt 2 then ⟨[u0, u1, cancelUpdate], [], files1, []⟩ else
      let u2 := stageUpdate "TEXT_AGENTS" 40
      let tp := textStep env eff
      let files2 := files1 ++ tp.1
      let fails2 := tp.2
      if env.cancelAt 3 then ⟨[u0, u1, u2, cancelUpdate], fails2, files2, []⟩ else
      let u3 := stageUpdate "VISUAL" 60
      let vp := visualStep env eff
      let files3 := files2 ++ vp.1
      let warns3 := warnings0 ++ vp.2.1
      let fails3 := fails2 ++ vp.2.2
      if env.cancelAt 4 then ⟨[u0, u1, u2, u3, cancelUpdate], fails3, files3, []⟩ else
      let u4 := stageUpdate "CHART" 72
      let cp := chartStep env eff
      let files4 := files3 ++ cp.1
      let warns4 := warns3 ++ cp.2.1
      let fails4 := fails3 ++ cp.2.2
      if env.cancelAt 5 then ⟨[u0, u1, u2, u3, u4, cancelUpdate], fails4, files4, []⟩ else
      let u5 := stageUpdate "SHORTS" 82
      let sp := shortsStep env eff
      let files5 := files4 ++ sp.1
      let warns5 := warns4 ++ sp.2.1
      let fails5 := fails4 ++ sp.2.2
      if env.cancelAt 6 then ⟨[u0, u1, u2, u3, u4, u5, cancelUpdate], fails5, files5, []⟩ else
      let u6 := stageUpdate "REVIEW" 92
      let rev := runReviewer (env.reviewFS files5) eff fails5 warns5
      let files6 := files5 ++ ["review-report.md"]
      let failsAll := fails5 ++ rev.2
      ⟨[u0, u1, u2, u3, u4, u5, u6, finalize failsAll], failsAll, files6, rev.1⟩

/-- The durable record after a run, starting from `j0`. -/
def runRecord (j0 : JobRecord) (env : Env) : JobRecord :=
  (processJob env).updates.foldl applyUpdate j0

/-- Position of a stage name in the nominal order (DONE and unknown names
map past the end). -/
def stageIdx : String → Nat
  | "INGESTION" => 0
  | "PLANNER" => 1
  | "TEXT_AGENTS" => 2
  | "VISUAL" => 3
  | "CHART" => 4
  | "SHORTS" => 5
  | "REVIEW" => 6
  | _ => 7

/-- Substring occurrence as a proposition (`pat in s`, Python). -/
def occursIn (pat s : String) : Prop := pat.data <:+: s.data

def countOccsGo (pat : List Char) : Nat → List Char → Nat
  | _, [] => 0
  | 0, _ => 0
  | f + 1, c :: rest =>
    if pat.isPrefixOf (c :: rest) then
      1 + countOccsGo pat f ((c :: rest).drop pat.length)
    else countOccsGo pat f rest

/-- Python `s.count(pat)`: non-overlapping occurrence count. -/
def countOccs (pat s : String) : Nat := countOccsGo pat.data s.data.length s.data

/-- The sequence of `progress` values a trace persists, in commit order. -/
def progressSeq (l : List JobUpdate) : List Nat := l.filterMap (fun u => u.progress)

/-- A freshly created job row (`routes_jobs.create_job` defaults). -/
def j0Sample : JobRecord :=
  { status := .PENDING, current_stage := "QUEUED", progress := 0,
    error_message := none, retry_count := 0, cancel_requested := false,
    started_at := none, finished_at := none }

/-- A small successful ingestion outcome for concrete runs. -/
def ingSample : Ingestion := ⟨"브리핑 제목", "source body", [], none⟩

/-- A fully successful mock-mode environment for two text targets; the
concrete runs in witnesses below are variations of it. -/
def envBase : Env :=
  { targetsRaw := ["blog", "newsletter"], mock_mode := true,
    ingestion := .ok ingSample, planner := .ok (), textStageErr := none,
    textErr := fun _ => none, visual := .ok ([], []), chart := .ok ([], []),
    shorts := .ok ([], []), cancelFrom := none, fsVisualsDirExists := false,
    fsThumbSize := none, fsCardNewsCount := 0, fsChartsDirExists := false,
    fsChartFiles := [], fsShortsDirExists := false, fsShortsClips := [] }

/-- The run where the blog target's generation raises `boom` while its
sibling (newsletter) succeeds. -/
def envC2 : Env :=
  { envBase with textErr := fun t => if t = "blog" then some "boom" else none }

/-- The run where the cancel flag is set only after the last checkpoint
(between the pre-REVIEW read and finalization, while the job is RUNNING). -/
def envCancelLate : Env := { envBase with cancelFrom := some 7 }

/-- An artifact tree whose thumbnail exists but is 800x600. -/
def fsC7 : ReviewFS :=
  ⟨["brief.md", "visuals/thumbnail.png"], true, some (800, 600), 0, false, [], false, []⟩

/-! ### Key-message extraction (`orchestrator._extract_key_messages`)

The heuristic works on Python strings; the embedding works on `List Char`
(`String.data`), with Python's `str.lower()` modelled by `Char.toLower`
(ASCII; the source's patterns are ASCII and Korean text has no case). -/

/-- `orchestrator._META_PATTERNS` (already lowercase in the source). -/
def _META_PATTERNS : List String :=
  ["instagram card-news", "responsemodalities", "generationconfig", "\"model\"",
   "prompt", "thumbnail", "last slide", "cta", "output format", "system instruction"]

/-- `orchestrator._PRIORITY_TERMS`. -/
def _PRIORITY_TERMS : List String :=
  ["핵심", "전략", "시장", "고객", "매출", "성과", "전환", "효율", "비용", "리스크",
   "자동화", "성장", "수익", "개선"]

/-- `orchestrator._TITLE_STOPWORDS`. -/
def _TITLE_STOPWORDS : List String :=
  ["the", "and", "for", "with", "from", "about", "this", "that", "guide", "news",
   "update", "분석", "가이드", "정리", "리포트", "콘텐츠", "마케팅"]

/-- The backtick character (U+0060). -/
def backquote : Char := Char.ofNat 96

/-- Computable `in` check: does `p` occur as a contiguous substring of
`l`? -/
def infixB : List Char → List Char → Bool
  | p, [] => p.isEmpty
  | p, c :: rest => p.isPrefixOf (c :: rest) || infixB p rest

/-- `_is_meta_candidate` on chars: some meta pattern occurs in the
lowercased candidate. -/
def metaChars (s : List Char) : Bool :=
  _META_PATTERNS.any (fun p => infixB p.data (lowerChars s))

/-- `orchestrator._is_meta_candidate`. -/
def _is_meta_candidate (candidate : String) : Bool := metaChars candidate.data

/-- Does the list start with three backticks? -/
def startsTriple : List Char → Bool
  | a :: b :: c :: _ => a = backquote ∧ b = backquote ∧ c = backquote
  | _ => false

/-- Scan for the closing triple of a code fence; returns the remainder
after it. -/
def findCloseFence : List Char → Option (List Char)
  | [] => none
  | c :: rest =>
    if startsTriple (c :: rest) then some (rest.drop 2) else findCloseFence rest

/-- Fuelled scan for `re.sub(r"```.*?```", " ", text, flags=DOTALL)`:
each non-greedy fenced block is replaced by one space; an unmatched
opening fence is left as-is. -/
def fenceGo : Nat → List Char → List Char
  | 0, s => s
  | _ + 1, [] => []
  | f + 1, c :: rest =>
    if startsTriple (c :: rest) then
      match findCloseFence (rest.drop 2) with
      | none => c :: rest
      | some after => ' ' :: fenceGo f after
    else c :: fenceGo f rest

def stripFences (s : List Char) : List Char := fenceGo s.length s

/-- Fuelled scan for `re.sub(r"\[([^\]]+)\]\([^)]+\)", r"\1", value)`:
markdown links become their link text; malformed brackets are kept. -/
def mdGo : Nat → List Char → List Char
  | 0, s => s
  | _ + 1, [] => []
  | f + 1, c :: rest =>
    if c = '[' then
      let content := rest.takeWhile (fun x => x ≠ ']')
      match rest.drop content.length with
      | ']' :: '(' :: rest2 =>
        if content = [] then c :: mdGo f rest
        else
          let url := rest2.takeWhile (fun x => x ≠ ')')
          match rest2.drop url.length with
          | ')' :: rest3 =>
            if url = [] then c :: mdGo f rest else content ++ mdGo f rest3
          | _ => c :: mdGo f rest
      | _ => c :: mdGo f rest
    else c :: mdGo f rest

def stripMdLinks (s : List Char) : List Char := mdGo s.length s

/-- Split at every whitespace char (keeping empty runs; the result is
always non-empty, so `headI`/`tail` never hit the default). -/
def splitWsAll : List Char → List (List Char)
  | [] => [[]]
  | c :: rest =>
    let r := splitWsAll rest
    if c.isWhitespace then [] :: r else (c :: r.headI) :: r.tail

/-- Python `str.split()`: maximal whitespace-free runs. -/
def wsWords (l : List Char) : List (List Char) := (splitWsAll l).filter (fun w => w ≠ [])

/-- `" ".join(words)`. -/
def joinSp : List (List Char) → List Char
  | [] => []
  | [w] => w
  | w :: ws => w ++ ' ' :: joinSp ws

/-- `orchestrator._clean_candidate` on chars: strip, de-link, drop
backticks and asterisks, collapse whitespace, then reject short, URL,
template-variable and meta candidates. -/
def cleanChars (chunk : List Char) : Option (List Char) :=
  let value0 := trimChars chunk
  if value0 = [] then none
  else
    let v1 := stripMdLinks value0
    let v2 := v1.filter (fun ch => ch ≠ backquote ∧ ch ≠ '*')
    let value := joinSp (wsWords v2)
    if value.length < 18 then none
    else if "http://".data.isPrefixOf value ∨ "https://".data.isPrefixOf value then none
    else if infixB "{message}".data value ∨ infixB "{topic}".data value then none
    else if metaChars value then none
    else some value

/-- `orchestrator._clean_candidate`. -/
def _clean_candidate (chunk : String) : Option String :=
  (cleanChars chunk.data).map String.mk

/-- `re.sub(r"^\s*[-*]\s+", "", s)` then `re.sub(r"^\s*\d+[.)]\s+", "", s)`
then `.lstrip("#").strip()`. -/
def stripBulletNum (l : List Char) : List Char :=
  let l1 :=
    match l.dropWhile Char.isWhitespace with
    | c :: rest =>
      if (c = '-' ∨ c = '*') ∧ rest.takeWhile Char.isWhitespace ≠ [] then
        rest.dropWhile Char.isWhitespace
      else l
    | [] => l
  let l2 :=
    let s0 := l1.dropWhile Char.isWhitespace
    let digits := s0.takeWhile Char.isDigit
    if digits ≠ [] then
      match s0.drop digits.length with
      | c :: rest =>
        if (c = '.' ∨ c = ')') ∧ rest.takeWhile Char.isWhitespace ≠ [] then
          rest.dropWhile Char.isWhitespace
        else l1
      | [] => l1
    else l1
  trimChars (l2.dropWhile (fun ch => ch = '#'))

/-- Sentence enders of `re.split(r"(?<=[.!?。])\s+|(?<=다\.)\s+", s)`
(the Korean lookbehind is subsumed by `.`). -/
def sentEnder (ch : Char) : Bool := ch = '.' ∨ ch = '!' ∨ ch = '?' ∨ ch = '。'

/-- Split at whitespace runs that follow a sentence ender (`cur` holds the
current chunk reversed; the fuel bounds the number of consumed chars, so
`length` fuel never runs out). -/
def sentGo : Nat → List Char → List Char → List (List Char)
  | 0, cur, rest => [cur.reverse ++ rest]
  | _ + 1, cur, [] => [cur.reverse]
  | f + 1, cur, c :: rest =>
    if c.isWhitespace && (match cur with | p :: _ => sentEnder p | [] => false) then
      cur.reverse :: sentGo f [] (rest.dropWhile Char.isWhitespace)
    else sentGo f (c :: cur) rest

def splitSentences (l : List Char) : List (List Char) := sentGo l.length [] l

/-- `"\r\n" → "\n"`. -/
def replCRLF : List Char → List Char
  | [] => []
  | '\r' :: '\n' :: rest => '\n' :: replCRLF rest
  | c :: rest => c :: replCRLF rest

/-- Split on newlines (keeping empties, which the caller skips). -/
def splitOnNl : List Char → List (List Char)
  | [] => [[]]
  | c :: rest =>
    match splitOnNl rest with
    | [] => [[]]
    | w :: ws => if c = '\n' then [] :: w :: ws else (c :: w) :: ws

/-- Inner accumulation of `_collect_candidates`: clean a sentence chunk
and append it unless its lowercase form was already seen.  The state is
(seen lowered keys, pieces). -/
def chunkStep (st2 : List (List Char) × List (List Char)) (chunk : List Char) :
    List (List Char) × List (List Char) :=
  match cleanChars chunk with
  | none => st2
  | some cand =>
    let key := lowerChars cand
    if st2.1.contains key then st2
    else (st2.1 ++ [key], st2.2 ++ [cand])

/-- Per-line step of `_collect_candidates`. -/
def collectStep (st : List (List Char) × List (List Char)) (line : List Char) :
    List (List Char) × List (List Char) :=
  let stripped0 := trimChars line
  if stripped0 = [] then st
  else
    let s1 := stripBulletNum stripped0
    if s1 = [] then st
    else (splitSentences s1).foldl chunkStep st

/-- `orchestrator._collect_candidates` on chars. -/
def collectChars (text : List Char) : List (List Char) :=
  ((splitOnNl (replCRLF (stripFences text))).foldl collectStep ([], [])).2

/-- `orchestrator._collect_candidates`. -/
def _collect_candidates (text : String) : List String :=
  (collectChars text.data).map String.mk

/-- A char of the `[가-힣A-Za-z0-9]` class. -/
def isWordChar (ch : Char) : Bool :=
  decide (0xAC00 ≤ ch.toNat ∧ ch.toNat ≤ 0xD7A3) || ch.isAlpha || ch.isDigit

/-- Split into maximal word-char runs (`re.findall(r"[가-힣A-Za-z0-9]+", s)`
keeps the non-empty ones). -/
def splitNonWord : List Char → List (List Char)
  | [] => [[]]
  | c :: rest =>
    match splitNonWord rest with
    | [] => [[]]
    | w :: ws => if isWordChar c then (c :: w) :: ws else [] :: w :: ws

/-- Stable insertion keeping longer words first (Python
`list.sort(key=len, reverse=True)` is stable). -/
def insertLenDesc (x : List Char) : List (List Char) → List (List Char)
  | [] => [x]
  | y :: ys => if x.length ≤ y.length then y :: insertLenDesc x ys else x :: y :: ys

def sortByLenDesc (l : List (List Char)) : List (List Char) :=
  l.foldl (fun acc x => insertLenDesc x acc) []

/-- `orchestrator._title_keywords` on chars. -/
def titleKeywordsChars (title : List Char) : List (List Char) :=
  let tokens := (splitNonWord title).filter (fun w => w ≠ [])
  let cleaned := tokens.filterMap (fun tok =>
    let word := lowerChars tok
    if word.length < 2 then none
    else if _TITLE_STOPWORDS.any (fun s => s.data = word) then none
    else some word)
  (sortByLenDesc cleaned).take 8

/-- `orchestrator._title_keywords`. -/
def _title_keywords (title : String) : List String :=
  (titleKeywordsChars title.data).map String.mk

/-- Number of priority terms occurring in the candidate. -/
def priorityHits (cand : List Char) : Nat :=
  (_PRIORITY_TERMS.filter (fun t => infixB t.data cand)).length

/-- Number of title keywords occurring in the lowercased candidate. -/
def titleHits (kw : List (List Char)) (lowered : List Char) : Nat :=
  (kw.filter (fun k => infixB k lowered)).length

/-- `orchestrator._looks_like_instruction` on chars. -/
def looksLikeInstruction (cand : List Char) : Bool :=
  let lowered := lowerChars cand
  let terms : List String :=
    ["create", "generate", "style", "prompt", "slide", "thumbnail", "output"]
  if terms.any (fun t => infixB t.data lowered) then
    let hangul := (cand.filter (fun ch =>
      decide (0xAC00 ≤ ch.toNat ∧ ch.toNat ≤ 0xD7A3))).length
    let asciiAlpha := (cand.filter (fun ch => ch.toNat < 128 ∧ ch.isAlpha)).length
    decide (asciiAlpha > 18 ∧ hangul < 4)
  else false

/-- `orchestrator._looks_like_instruction`. -/
def _looks_like_instruction (candidate : String) : Bool :=
  looksLikeInstruction candidate.data

/-- `orchestrator._score_candidate` on chars. -/
def scoreChars (cand : List Char) (kw : List (List Char)) : Int :=
  let lowered := lowerChars cand
  if metaChars cand then -100
  else
    let s1 : Int := min (cand.length : Int) 90
    let s2 := s1 + (if cand.any Char.isDigit then 16 else 0)
    let s3 := s2 + min ((priorityHits cand : Int) * 10) 40
    let s4 := s3 + min ((titleHits kw lowered : Int) * 14) 42
    let s5 := s4 - (if cand.length < 30 then 20 else 0)
    let s6 := s5 - (if cand.length > 180 then 15 else 0)
    s6 - (if looksLikeInstruction cand then 45 else 0)

/-- `orchestrator._score_candidate`. -/
def _score_candidate (candidate : String) (title_keywords : List String) : Int :=
  scoreChars candidate.data (title_keywords.map String.data)

/-- The sort key of `scored.sort(key=lambda item: (-item[0], item[1]))`:
higher score first, earlier original index on ties. -/
def scoredRel (x y : Int × Nat × List Char) : Prop :=
  x.1 > y.1 ∨ (x.1 = y.1 ∧ x.2.1 ≤ y.2.1)

instance : DecidableRel scoredRel := fun x y => by
  unfold scoredRel
  infer_instance

instance : IsTotal (Int × Nat × List Char) scoredRel :=
  ⟨fun a b => by unfold scoredRel; omega⟩

instance : IsTrans (Int × Nat × List Char) scoredRel :=
  ⟨fun a b c hab hbc => by unfold scoredRel at *; omega⟩

/-- The stable sort by `(-score, idx)`. -/
def sortScored (l : List (Int × Nat × List Char)) : List (Int × Nat × List Char) :=
  List.insertionSort scoredRel l

/-- `enumerate(candidates)`. -/
def enumFrom (n : Nat) : List (List Char) → List (Nat × List Char)
  | [] => []
  | c :: cs => (n, c) :: enumFrom (n + 1) cs

/-- Python `textwrap.shorten` word fitting: the maximal word prefix whose
space-joined length stays within the limit. -/
def greedyFitGo (limit : Nat) (acc : Nat) : List (List Char) → List (List Char)
  | [] => []
  | w :: ws =>
    let nl := if acc = 0 then w.length else acc + 1 + w.length
    if nl ≤ limit then w :: greedyFitGo limit nl ws else []

/-- `textwrap.shorten(s, width, placeholder="...")`: collapse whitespace;
if the result fits, keep it, else keep the longest word prefix that fits
with the placeholder appended (the placeholder alone when nothing fits;
`break_long_words` chunking is abstracted to whole words, which no
checked property distinguishes). -/
def shortenChars (width : Nat) (s : List Char) : List Char :=
  let ws := wsWords s
  let collapsed := joinSp ws
  if collapsed.length ≤ width then collapsed
  else
    match greedyFitGo (width - 3) 0 ws with
    | [] => "...".data
    | kept => joinSp kept ++ "...".data

/-- The main selection loop of `_extract_key_messages`: walk the sorted
candidates, dedup case-insensitively, shorten to 120 chars, stop after
`count` picks (the break sits after the append, as in the source). -/
def selectLoop (count : Nat) :
    List (Int × Nat × List Char) → List (List Char) → List (List Char) →
      List (List Char) × List (List Char)
  | [], sel, used => (sel, used)
  | (_, _, cand) :: rest, sel, used =>
    let key := lowerChars cand
    if used.contains key then selectLoop count rest sel used
    else
      let sel2 := sel ++ [shortenChars 120 cand]
      let used2 := used ++ [key]
      if count ≤ sel2.length then (sel2, used2) else selectLoop count rest sel2 used2

/-- The backfill loop: walk the unfiltered candidates in original order,
still skipping seen keys and meta candidates. -/
def backfillLoop (count : Nat) :
    List (List Char) → List (List Char) → List (List Char) →
      List (List Char) × List (List Char)
  | [], sel, used => (sel, used)
  | cand :: rest, sel, used =>
    let key := lowerChars cand
    if used.contains key then backfillLoop count rest sel used
    else if metaChars cand then backfillLoop count rest sel used
    else
      let sel2 := sel ++ [shortenChars 120 cand]
      let used2 := used ++ [key]
      if count ≤ sel2.length then (sel2, used2) else backfillLoop count rest sel2 used2

/-- The deterministic placeholder when nothing survives. -/
def extractPlaceholder : String := "핵심 메시지를 추출하지 못했습니다. 원문 검토가 필요해요."

/-- `orchestrator._extract_key_messages` on chars. -/
def extractChars (title text : List Char) (count : Nat) : List (List Char) :=
  let candidates := collectChars text
  let kw := titleKeywordsChars title
  let scored := (enumFrom 0 candidates).filterMap (fun p =>
    let s := scoreChars p.2 kw
    if 0 < s then some (s, p.1, p.2) else none)
  let sorted := sortScored scored
  let r1 := selectLoop count sorted [] []
  let r2 := if r1.1.length < min count 3 then backfillLoop count candidates r1.1 r1.2 else r1
  if r2.1 = [] then [extractPlaceholder.data] else r2.1

/-- `orchestrator._extract_key_messages`. -/
def _extract_key_messages (title text : String) (count : Nat) : List String :=
  (extractChars title.data text.data count).map String.mk

/-- A whitespace-collapsed candidate: splitting and re-joining is the
identity. -/
def collapsed (c : List Char) : Prop := joinSp (wsWords c) = c

/-- The mixed meta/domain source of the extraction scenario (title). -/
def sceneTitle : String := "미국 경기 둔화가 수출 기업에 미치는 영향"

/-- The mixed meta/domain source of the extraction scenario: leaked image
-prompt text and a JSON payload followed by three domain sentences. -/
def sceneText : String :=
  "Instagram card-news last slide. Clear CTA. Bold typography.\n\x7b\n  \"model\": \"models/gemini-3-pro-image-preview\",\n  \"generationConfig\": \x7b\"responseModalities\": [\"IMAGE\"]\x7d\n\x7d\n미국 경기 둔화 신호가 뚜렷해지며 반도체 수출 증가율이 2분기 4%로 하락했다.\n환율 변동성 확대에 대비해 수출 기업은 분기별 환헤지 비율을 재조정해야 한다.\n단가 인상보다 재고 회전율 개선이 영업이익 방어에 더 효과적이라는 분석이 제시됐다.\n"

end CMT

namespace CMT

/-! ### Theorems on the API endpoints and the queue -/

/-- C6: retry succeeds exactly from FAILED/PARTIAL_SUCCESS with
`retry_count = 0`; a rejected retry leaves the record unchanged; a
successful retry resets the run state and bumps `retry_count` by one. -/
theorem retry_job_spec (j : JobRecord) :
    ((retry_job j).2 = none ↔
      ((j.status = .FAILED ∨ j.status = .PARTIAL_SUCCESS) ∧ j.retry_count = 0)) ∧
    ((retry_job j).2 ≠ none → (retry_job j).1 = j) ∧
    ((retry_job j).2 = none → (retry_job j).1 =
      { j with
          retry_count := j.retry_count + 1
          status := .PENDING
          current_stage := "QUEUED"
          progress := 0
          error_message := none
          started_at := none
          finished_at := none
          cancel_requested := false }) := by
  unfold retry_job
  by_cases h1 : j.status = .FAILED ∨ j.status = .PARTIAL_SUCCESS
  · by_cases h2 : j.retry_count ≥ 1
    · simp [h1, h2]
      omega
    · simp [h1, h2]
      omega
  · simp [h1]

/-- Witness for `retry_job_spec` at a concrete failed job. -/
theorem retry_job_spec_witness :
    ((retry_job
        { status := .FAILED, current_stage := "DONE", progress := 100,
          error_message := some "INGESTION 실패: x", retry_count := 0,
          cancel_requested := false, started_at := some 1,
          finished_at := some 2 }).2 = none ↔
      ((Status.FAILED = .FAILED ∨ Status.FAILED = .PARTIAL_SUCCESS) ∧ 0 = 0)) :=
  have h := retry_job_spec
    { status := .FAILED, current_stage := "DONE", progress := 100,
      error_message := some "INGESTION 실패: x", retry_count := 0,
      cancel_requested := false, started_at := some 1, finished_at := some 2 }
  h.1

/-- C10: on a non-terminal job the cancel endpoint flips only
`cancel_requested`; every other durable field is untouched, while the
response body already reports CANCELED. -/
theorem cancel_endpoint_frame (j : JobRecord) (h : j.status.isTerminal = false) :
    (cancel_job j).1 = { j with cancel_requested := true } ∧
    (cancel_job j).2 = .CANCELED ∧
    (cancel_job j).1.status = j.status ∧
    (cancel_job j).1.current_stage = j.current_stage ∧
    (cancel_job j).1.progress = j.progress ∧
    (cancel_job j).1.error_message = j.error_message ∧
    (cancel_job j).1.retry_count = j.retry_count ∧
    (cancel_job j).1.started_at = j.started_at ∧
    (cancel_job j).1.finished_at = j.finished_at := by
  have hne : ¬(j.status = .SUCCEEDED ∨ j.status = .FAILED ∨ j.status = .PARTIAL_SUCCESS
      ∨ j.status = .CANCELED) := by
    cases hs : j.status <;> simp [hs, Status.isTerminal] at h ⊢
  unfold cancel_job
  simp [hne]

/-- Witness for `cancel_endpoint_frame` at a concrete RUNNING job. -/
theorem cancel_endpoint_frame_witness :
    (cancel_job
      { status := .RUNNING, current_stage := "VISUAL", progress := 60,
        error_message := none, retry_count := 0, cancel_requested := false,
        started_at := some 0, finished_at := none }).2 = Status.CANCELED :=
  (cancel_endpoint_frame
    { status := .RUNNING, current_stage := "VISUAL", progress := 60,
      error_message := none, retry_count := 0, cancel_requested := false,
      started_at := some 0, finished_at := none } (by decide)).2.1

/-- C5: the worker loop as written does NOT survive a processor exception.
With `["job-1", "job-2"]` enqueued and the processor raising on the first
item, the loop attempts only `job-1` — the exception escapes the
`try/finally` (which has no `except`) and the second item is never
processed. -/
theorem queue_loop_dies_on_processor_exception :
    runLoop (fun id => if id = "job-1" then .error "boom" else .ok ()) ["job-1", "job-2"]
        = (["job-1"], some "boom") ∧
    "job-2" ∉ (runLoop (fun id => if id = "job-1" then .error "boom" else .ok ())
        ["job-1", "job-2"]).1 := by
  constructor
  · rfl
  · decide

/-- `cancel_requested` reads are monotone over checkpoints: if the flag is
still unread-true at checkpoint 6, it read false at every earlier one. -/
theorem cancelAt_mono_false (env : Env) (h6 : env.cancelAt 6 = false)
    {k : Nat} (hk : k ≤ 6) : env.cancelAt k = false := by
  unfold Env.cancelAt at h6 ⊢
  cases hc : env.cancelFrom with
  | none => rfl
  | some c =>
    rw [hc] at h6
    simp only [decide_eq_false_iff_not] at h6 ⊢
    omega

/-- C4: a raising ingestion collaborator ends the job FAILED (not
PARTIAL_SUCCESS) at stage DONE, progress 100, with an ingestion-tagged
error message, and the run writes no artifacts (no downstream stage
executes). -/
theorem ingestion_failure_fatal (env : Env) (j0 : JobRecord) (e : String)
    (h0 : env.cancelAt 0 = false) (he : env.ingestion = .error e) :
    (runRecord j0 env).status = .FAILED ∧
    (runRecord j0 env).status ≠ .PARTIAL_SUCCESS ∧
    (runRecord j0 env).current_stage = "DONE" ∧
    (runRecord j0 env).progress = 100 ∧
    (∃ msg, (runRecord j0 env).error_message = some msg ∧ occursIn "INGESTION 실패" msg) ∧
    (processJob env).files = [] := by
  have hrun : processJob env = ⟨[startUpdate, failUpdate ("INGESTION 실패: " ++ e)], [], [], []⟩ := by
    unfold processJob
    rw [he, h0]
    simp
  have hmsg : (runRecord j0 env).error_message = some ("INGESTION 실패: " ++ e) := by
    simp [runRecord, hrun, applyUpdate, startUpdate, failUpdate]
  refine ⟨?_, ?_, ?_, ?_, ⟨"INGESTION 실패: " ++ e, hmsg, ?_⟩, ?_⟩ <;>
    try simp [runRecord, hrun, applyUpdate, startUpdate, failUpdate]
  show "INGESTION 실패".data <:+: ("INGESTION 실패: " ++ e).data
  refine ⟨[], ": ".data ++ e.data, ?_⟩
  have hsplit : "INGESTION 실패".data ++ ": ".data = "INGESTION 실패: ".data := by decide
  simp [String.data_append, ← hsplit, List.append_assoc]

/-- Witness for `ingestion_failure_fatal` at a concrete environment. -/
theorem ingestion_failure_fatal_witness :
    ((runRecord
        { status := .PENDING, current_stage := "QUEUED", progress := 0,
          error_message := none, retry_count := 0, cancel_requested := false,
          started_at := none, finished_at := none }
        { targetsRaw := ["blog"], mock_mode := true, ingestion := .error "connection refused",
          planner := .ok (), textStageErr := none, textErr := fun _ => none,
          visual := .ok ([], []), chart := .ok ([], []), shorts := .ok ([], []),
          cancelFrom := none, fsVisualsDirExists := false, fsThumbSize := none,
          fsCardNewsCount := 0, fsChartsDirExists := false, fsChartFiles := [],
          fsShortsDirExists := false, fsShortsClips := [] }).status = Status.FAILED) :=
  (ingestion_failure_fatal
    { targetsRaw := ["blog"], mock_mode := true, ingestion := .error "connection refused",
      planner := .ok (), textStageErr := none, textErr := fun _ => none,
      visual := .ok ([], []), chart := .ok ([], []), shorts := .ok ([], []),
      cancelFrom := none, fsVisualsDirExists := false, fsThumbSize := none,
      fsCardNewsCount := 0, fsChartsDirExists := false, fsChartFiles := [],
      fsShortsDirExists := false, fsShortsClips := [] }
    { status := .PENDING, current_stage := "QUEUED", progress := 0,
      error_message := none, retry_count := 0, cancel_requested := false,
      started_at := none, finished_at := none }
    "connection refused" rfl rfl).1

/-- C1: a run that reaches finalization (ingestion and planner return,
no cancellation read at any checkpoint) persists PARTIAL_SUCCESS exactly
when the accumulated failures list is non-empty and SUCCEEDED otherwise;
`error_message` is the newline-join of the first 20 failure strings (or
absent when there are none), with stage DONE and progress 100. -/
theorem finalization_spec (env : Env) (j0 : JobRecord) (ing : Ingestion)
    (h6 : env.cancelAt 6 = false) (hi : env.ingestion = .ok ing)
    (hp : env.planner = .ok ()) :
    (runRecord j0 env).status =
      (if (processJob env).failures = [] then Status.SUCCEEDED else .PARTIAL_SUCCESS) ∧
    (runRecord j0 env).error_message =
      (if (processJob env).failures = [] then none
       else some (joinNL ((processJob env).failures.take 20))) ∧
    (runRecord j0 env).current_stage = "DONE" ∧
    (runRecord j0 env).progress = 100 := by
  have h0 : env.cancelAt 0 = false := cancelAt_mono_false env h6 (by omega)
  have h1 : env.cancelAt 1 = false := cancelAt_mono_false env h6 (by omega)
  have h2 : env.cancelAt 2 = false := cancelAt_mono_false env h6 (by omega)
  have h3 : env.cancelAt 3 = false := cancelAt_mono_false env h6 (by omega)
  have h4 : env.cancelAt 4 = false := cancelAt_mono_false env h6 (by omega)
  have h5 : env.cancelAt 5 = false := cancelAt_mono_false env h6 (by omega)
  unfold runRecord processJob finalize
  rw [hi, hp, h0, h1, h2, h3, h4, h5, h6]
  simp only [Bool.false_eq_true, if_false]
  split <;>
    simp [applyUpdate, startUpdate, stageUpdate, finalUpdate, List.foldl]

/-- Witness for `finalization_spec`: the all-success run ends SUCCEEDED. -/
theorem finalization_spec_witness :
    (runRecord j0Sample envBase).status =
      (if (processJob envBase).failures = [] then Status.SUCCEEDED
       else .PARTIAL_SUCCESS) :=
  (finalization_spec envBase j0Sample ingSample rfl rfl rfl).1

/-- No stage-boundary update persists progress 100. -/
theorem stageUps_no100 : ∀ u ∈ stageUps, ¬ u.progress = some 100 := by decide

/-- The finalization update always persists a terminal status. -/
theorem finalize_terminal (fails : List String) :
    ∃ s, (finalize fails).status = some s ∧ s.isTerminal = true := by
  by_cases h : fails = []
  · exact ⟨.SUCCEEDED, by simp [finalize, finalUpdate, h], rfl⟩
  · exact ⟨.PARTIAL_SUCCESS, by simp [finalize, finalUpdate, h], rfl⟩

/-- The four shapes a persist trace can take: cancelled at a checkpoint,
fatally failed in INGESTION or PLANNER, or run to finalization. -/
theorem trace_shape (env : Env) :
    (∃ k, k ≤ 5 ∧
      (processJob env).updates = startUpdate :: stageUps.take k ++ [cancelUpdate]) ∨
    (∃ m, (processJob env).updates = [startUpdate, failUpdate m]) ∨
    (∃ m, (processJob env).updates = [startUpdate, stageUpdate "PLANNER" 20, failUpdate m]) ∨
    (∃ fails, (processJob env).updates = startUpdate :: stageUps ++ [finalize fails]) := by
  unfold processJob
  cases hc0 : env.cancelAt 0 with
  | true => exact Or.inl ⟨0, by omega, by simp [stageUps]⟩
  | false =>
  cases hi : env.ingestion with
  | error e => exact Or.inr (Or.inl ⟨"INGESTION 실패: " ++ e, by simp⟩)
  | ok ing =>
  cases hc1 : env.cancelAt 1 with
  | true => exact Or.inl ⟨0, by omega, by simp [stageUps]⟩
  | false =>
  cases hp : env.planner with
  | error e => exact Or.inr (Or.inr (Or.inl ⟨"PLANNER 실패: " ++ e, by simp⟩))
  | ok v =>
  cases hc2 : env.cancelAt 2 with
  | true => exact Or.inl ⟨1, by omega, by simp [stageUps]⟩
  | false =>
  cases hc3 : env.cancelAt 3 with
  | true => exact Or.inl ⟨2, by omega, by simp [stageUps]⟩
  | false =>
  cases hc4 : env.cancelAt 4 with
  | true => exact Or.inl ⟨3, by omega, by simp [stageUps]⟩
  | false =>
  cases hc5 : env.cancelAt 5 with
  | true => exact Or.inl ⟨4, by omega, by simp [stageUps]⟩
  | false =>
  cases hc6 : env.cancelAt 6 with
  | true => exact Or.inl ⟨5, by omega, by simp [stageUps]⟩
  | false =>
  refine Or.inr (Or.inr (Or.inr ⟨env.allFailures ing, ?_⟩))
  simp [stageUps, Env.allFailures, Env.preReview]

/-- C9: over any run, the persisted `progress` values are monotonically
non-decreasing, and an update carrying `progress = 100` always persists a
terminal status in that same update. -/
theorem progress_monotone_terminal (env : Env) :
    (progressSeq (processJob env).updates).Chain' (· ≤ ·) ∧
    ∀ u ∈ (processJob env).updates, u.progress = some 100 →
      ∃ s, u.status = some s ∧ s.isTerminal = true := by
  rcases trace_shape env with ⟨k, hk, hu⟩ | ⟨m, hu⟩ | ⟨m, hu⟩ | ⟨fails, hu⟩ <;> rw [hu]
  · constructor
    · interval_cases k <;>
        · simp [progressSeq, stageUps, startUpdate, stageUpdate, cancelUpdate,
            List.chain'_cons]
          try omega
    · intro u hum h100
      rcases List.mem_cons.mp hum with rfl | hum
      · simp [startUpdate] at h100
      rcases List.mem_append.mp hum with hum | hum
      · exact absurd h100 (stageUps_no100 u (List.take_subset _ _ hum))
      · rcases List.mem_singleton.mp hum with rfl
        exact ⟨.CANCELED, rfl, rfl⟩
  · constructor
    · have h : progressSeq [startUpdate, failUpdate m] = [5, 100] := rfl
      rw [h]; norm_num [List.chain'_cons]
    · intro u hum h100
      rcases List.mem_cons.mp hum with rfl | hum
      · simp [startUpdate] at h100
      rcases List.mem_cons.mp hum with rfl | hum
      · exact ⟨.FAILED, rfl, rfl⟩
      · simp at hum
  · constructor
    · have h : progressSeq [startUpdate, stageUpdate "PLANNER" 20, failUpdate m]
          = [5, 20, 100] := rfl
      rw [h]; norm_num [List.chain'_cons]
    · intro u hum h100
      rcases List.mem_cons.mp hum with rfl | hum
      · simp [startUpdate] at h100
      rcases List.mem_cons.mp hum with rfl | hum
      · simp [stageUpdate] at h100
      rcases List.mem_cons.mp hum with rfl | hum
      · exact ⟨.FAILED, rfl, rfl⟩
      · simp at hum
  · constructor
    · have h : progressSeq (startUpdate :: stageUps ++ [finalize fails])
          = [5, 20, 40, 60, 72, 82, 92, 100] := rfl
      rw [h]; norm_num [List.chain'_cons]
    · intro u hum h100
      rcases List.mem_cons.mp hum with rfl | hum
      · simp [startUpdate] at h100
      rcases List.mem_append.mp hum with hum | hum
      · exact absurd h100 (stageUps_no100 u hum)
      · rcases List.mem_singleton.mp hum with rfl
        exact finalize_terminal fails

/-- Witness for `progress_monotone_terminal`'s inner hypothesis: in the
run cancelled at checkpoint 0, the update that persists progress 100 is
the CANCELED one. -/
theorem progress_monotone_terminal_witness :
    ∃ s, cancelUpdate.status = some s ∧ s.isTerminal = true :=
  (progress_monotone_terminal { envBase with cancelFrom := some 0 }).2 cancelUpdate
    (by rw [show (processJob { envBase with cancelFrom := some 0 }).updates
        = [startUpdate, cancelUpdate] from rfl]
        exact List.mem_cons_of_mem _ (List.mem_singleton.mpr rfl))
    rfl

/-- A run that reaches finalization produces exactly the full trace, the
accumulated failures, the generated files plus the review report, and
the report lines. -/
theorem processJob_final (env : Env) (ing : Ingestion)
    (h6 : env.cancelAt 6 = false) (hi : env.ingestion = .ok ing)
    (hp : env.planner = .ok ()) :
    processJob env =
      ⟨startUpdate :: stageUps ++ [finalize (env.allFailures ing)],
       env.allFailures ing,
       (env.preReview ing).1 ++ ["review-report.md"],
       (runReviewer (env.reviewFS (env.preReview ing).1) (env.effective ing)
          (env.preReview ing).2.2 (env.preReview ing).2.1).1⟩ := by
  have h0 : env.cancelAt 0 = false := cancelAt_mono_false env h6 (by omega)
  have h1 : env.cancelAt 1 = false := cancelAt_mono_false env h6 (by omega)
  have h2 : env.cancelAt 2 = false := cancelAt_mono_false env h6 (by omega)
  have h3 : env.cancelAt 3 = false := cancelAt_mono_false env h6 (by omega)
  have h4 : env.cancelAt 4 = false := cancelAt_mono_false env h6 (by omega)
  have h5 : env.cancelAt 5 = false := cancelAt_mono_false env h6 (by omega)
  unfold processJob Env.allFailures Env.preReview
  rw [hi, hp, h0, h1, h2, h3, h4, h5, h6]
  simp [stageUps]

/-- The record-level finalization facts, parameterized by the failures
list of the run. -/
theorem runRecord_final_facts (env : Env) (j0 : JobRecord) (ing : Ingestion)
    (h6 : env.cancelAt 6 = false) (hi : env.ingestion = .ok ing)
    (hp : env.planner = .ok ()) :
    (runRecord j0 env).status =
      (if env.allFailures ing = [] then Status.SUCCEEDED else .PARTIAL_SUCCESS) ∧
    (runRecord j0 env).error_message =
      (if env.allFailures ing = [] then none
       else some (joinNL ((env.allFailures ing).take 20))) ∧
    (runRecord j0 env).current_stage = "DONE" ∧
    (runRecord j0 env).progress = 100 := by
  have hpj := processJob_final env ing h6 hi hp
  unfold runRecord
  rw [hpj]
  by_cases hf : env.allFailures ing = [] <;>
    simp [hf, applyUpdate, startUpdate, stageUpdate, stageUps, finalize,
      finalUpdate, List.foldl]

/-- Elements produced by `dedupFirstGo` come from the input and avoid the
seen set. -/
theorem mem_dedupFirstGo {l : List String} :
    ∀ {seen y}, y ∈ dedupFirstGo seen l → y ∈ l ∧ ¬ y ∈ seen := by
  induction l with
  | nil => intro seen y h; simp [dedupFirstGo] at h
  | cons x xs ih =>
    intro seen y h
    unfold dedupFirstGo at h
    by_cases hx : seen.contains x
    · rw [if_pos hx] at h
      obtain ⟨h1, h2⟩ := ih h
      exact ⟨List.mem_cons_of_mem _ h1, h2⟩
    · rw [if_neg hx] at h
      rcases List.mem_cons.mp h with rfl | h
      · refine ⟨List.mem_cons_self _ _, ?_⟩
        intro hy
        exact hx (by simpa using hy)
      · obtain ⟨h1, h2⟩ := ih h
        refine ⟨List.mem_cons_of_mem _ h1, fun hy => h2 (List.mem_cons_of_mem _ hy)⟩

/-- `dedupFirstGo` produces a duplicate-free list. -/
theorem nodup_dedupFirstGo {l : List String} : ∀ {seen}, (dedupFirstGo seen l).Nodup := by
  induction l with
  | nil => intro seen; simp [dedupFirstGo]
  | cons x xs ih =>
    intro seen
    unfold dedupFirstGo
    by_cases hx : seen.contains x
    · rw [if_pos hx]; exact ih
    · rw [if_neg hx]
      refine List.nodup_cons.mpr ⟨?_, ih⟩
      intro hmem
      exact (mem_dedupFirstGo hmem).2 (List.mem_cons_self x seen)

/-- The effective target list of a run has no duplicates. -/
theorem nodup_effective (env : Env) (ing : Ingestion) : (env.effective ing).Nodup := by
  unfold Env.effective
  split
  · exact List.Nodup.filter _ nodup_dedupFirstGo
  · exact nodup_dedupFirstGo

/-- `filterMap` over a duplicate-free list in which exactly one element
maps to `some` yields exactly that value. -/
theorem filterMap_single {f : String → Option String} :
    ∀ {l : List String}, l.Nodup → ∀ {t v}, t ∈ l → f t = some v →
      (∀ x ∈ l, x ≠ t → f x = none) → l.filterMap f = [v] := by
  intro l
  induction l with
  | nil => intro _ t v ht; exact absurd ht (List.not_mem_nil t)
  | cons x xs ih =>
    intro hnd t v ht hft hothers
    rcases List.mem_cons.mp ht with rfl | ht
    · have hx : xs.filterMap f = [] := by
        rw [List.filterMap_eq_nil_iff]
        intro a ha
        have hane : a ≠ t := fun h => (List.nodup_cons.mp hnd).1 (h ▸ ha)
        exact hothers a (List.mem_cons_of_mem _ ha) hane
      rw [List.filterMap_cons_some hft, hx]
    · have hne : x ≠ t := by
        rintro rfl
        exact (List.nodup_cons.mp hnd).1 ht
      have hfx : f x = none := hothers x (List.mem_cons_self _ _) hne
      rw [List.filterMap_cons_none hfx]
      exact ih (List.nodup_cons.mp hnd).2 ht hft
        (fun a ha hane => hothers a (List.mem_cons_of_mem _ ha) hane)

/-- A string prefixing the head of a joined list occurs in the join. -/
theorem occursIn_joinNL_head (t x : String) (xs : List String)
    (hpref : t.data <+: x.data) : occursIn t (joinNL (x :: xs)) := by
  cases xs with
  | nil => exact hpref.isInfix
  | cons y ys =>
    show t.data <:+: (x ++ "\n" ++ joinNL (y :: ys)).data
    have hx : x.data <+: (x ++ "\n" ++ joinNL (y :: ys)).data := by
      simp only [String.data_append, List.append_assoc]
      exact List.prefix_append _ _
    exact (hpref.trans hx).isInfix

/-- C2 counterexample: with targets blog+newsletter where exactly blog's
generation raises `boom` and the sibling succeeds, the job does end
PARTIAL_SUCCESS and the sibling's artifact exists, but the failing
target's name `blog` occurs twice in the final error_message — once in
the TEXT_AGENTS failure tag and once in the reviewer's missing-artifact
entry — not exactly once. -/
theorem text_failure_name_count_cex :
    envC2.textErr "blog" = some "boom" ∧
    envC2.textErr "newsletter" = none ∧
    (runRecord j0Sample envC2).status = .PARTIAL_SUCCESS ∧
    "newsletter.md" ∈ (processJob envC2).files ∧
    (runRecord j0Sample envC2).error_message
      = some "blog: boom\nmissing artifact: blog.md" ∧
    countOccs "blog" "blog: boom\nmissing artifact: blog.md" = 2 ∧
    ¬ countOccs "blog" "blog: boom\nmissing artifact: blog.md" = 1 := by
  refine ⟨rfl, rfl, rfl, ?_, rfl, rfl, by decide⟩
  rw [show (processJob envC2).files
      = ["brief.md", "newsletter.md", "review-report.md"] from rfl]
  decide

/-- C2 (amended): if exactly one selected text target raises while every
sibling succeeds, in a run reaching finalization, then the TEXT_AGENTS
stage records exactly one failure entry tagged with the failing target's
name, every sibling's artifact files are written, the job ends
PARTIAL_SUCCESS (never FAILED), and the failing target's name occurs in
the final error_message (at least once; the reviewer may add a
missing-artifact entry naming it again). -/
theorem text_target_isolation (env : Env) (j0 : JobRecord) (ing : Ingestion)
    (t m : String)
    (h6 : env.cancelAt 6 = false) (hi : env.ingestion = .ok ing)
    (hp : env.planner = .ok ()) (hts : env.textStageErr = none)
    (hsel : t ∈ (env.effective ing).filter (fun x => TEXT_TARGETS.contains x))
    (herr : env.textErr t = some m)
    (hothers : ∀ t' ∈ (env.effective ing).filter (fun x => TEXT_TARGETS.contains x),
        t' ≠ t → env.textErr t' = none) :
    (textStep env (env.effective ing)).2 = [t ++ ": " ++ m] ∧
    (∀ t' ∈ (env.effective ing).filter (fun x => TEXT_TARGETS.contains x), t' ≠ t →
        ∀ f ∈ targetFiles t', f ∈ (processJob env).files) ∧
    (runRecord j0 env).status = .PARTIAL_SUCCESS ∧
    (∃ msg, (runRecord j0 env).error_message = some msg ∧ occursIn t msg) := by
  have hnd : ((env.effective ing).filter (fun x => TEXT_TARGETS.contains x)).Nodup :=
    (nodup_effective env ing).filter _
  have hstep : (textStep env (env.effective ing)).2 = [t ++ ": " ++ m] := by
    unfold textStep
    rw [hts]
    show ((env.effective ing).filter (fun x => TEXT_TARGETS.contains x)).filterMap
        (fun t' => (env.textErr t').map (fun m' => t' ++ ": " ++ m')) = [t ++ ": " ++ m]
    exact filterMap_single hnd hsel (by rw [herr]; rfl)
      (fun x hx hne => by rw [hothers x hx hne]; rfl)
  have hAF : env.allFailures ing = (t ++ ": " ++ m) ::
      ((visualStep env (env.effective ing)).2.2 ++ (chartStep env (env.effective ing)).2.2
        ++ (shortsStep env (env.effective ing)).2.2
        ++ (runReviewer (env.reviewFS (env.preReview ing).1) (env.effective ing)
            (env.preReview ing).2.2 (env.preReview ing).2.1).2) := by
    conv_lhs => rw [Env.allFailures]
    simp only [Env.preReview, hstep, List.singleton_append, List.cons_append,
      List.append_assoc, List.nil_append]
  have hfacts := runRecord_final_facts env j0 ing h6 hi hp
  have hne : env.allFailures ing ≠ [] := by rw [hAF]; simp
  refine ⟨hstep, ?_, ?_, ?_⟩
  · intro t' ht' hne' f hf
    have hok := hothers t' ht' hne'
    have hpj := processJob_final env ing h6 hi hp
    have hfl : (processJob env).files = (env.preReview ing).1 ++ ["review-report.md"] := by
      rw [hpj]
    rw [hfl]
    refine List.mem_append_left _ ?_
    have hft : f ∈ (textStep env (env.effective ing)).1 := by
      unfold textStep
      rw [hts]
      show f ∈ ((((env.effective ing).filter (fun x => TEXT_TARGETS.contains x)).filter
          (fun x => env.textErr x = none)).map targetFiles).flatten
      exact List.mem_flatten.mpr
        ⟨targetFiles t',
         List.mem_map_of_mem _ (List.mem_filter.mpr ⟨ht', by simp [hok]⟩), hf⟩
    simp only [Env.preReview]
    simp [hft]
  · rw [hfacts.1, if_neg hne]
  · refine ⟨joinNL ((env.allFailures ing).take 20), ?_, ?_⟩
    · rw [hfacts.2.1, if_neg hne]
    · have htake : (env.allFailures ing).take 20 = (t ++ ": " ++ m) ::
          ((visualStep env (env.effective ing)).2.2
            ++ (chartStep env (env.effective ing)).2.2
            ++ (shortsStep env (env.effective ing)).2.2
            ++ (runReviewer (env.reviewFS (env.preReview ing).1) (env.effective ing)
                (env.preReview ing).2.2 (env.preReview ing).2.1).2).take 19 := by
        rw [hAF, show (20 : Nat) = 19 + 1 from rfl, List.take_succ_cons]
      rw [htake]
      refine occursIn_joinNL_head t _ _ ?_
      rw [String.data_append, String.data_append]
      exact (List.prefix_append _ _).trans (List.prefix_append _ _)

/-- Witness for `text_target_isolation` at the concrete `envC2` run. -/
theorem text_target_isolation_witness :
    (textStep envC2 (envC2.effective ingSample)).2 = ["blog" ++ ": " ++ "boom"] :=
  (text_target_isolation envC2 j0Sample ingSample "blog" "boom" rfl rfl rfl rfl
    (by decide) rfl (by decide)).1

/-- C3 counterexample: a cancellation requested while the job is RUNNING
but only after the last checkpoint read (cancelFrom = 7) is never
observed: the endpoint does set the flag on the RUNNING job, yet the run
finishes SUCCEEDED, not CANCELED. -/
theorem cancel_after_last_checkpoint_cex :
    envCancelLate.cancelFrom = some 7 ∧
    (∀ k < 7, envCancelLate.cancelAt k = false) ∧
    (cancel_job { j0Sample with status := .RUNNING }).1.cancel_requested = true ∧
    (runRecord j0Sample envCancelLate).status = .SUCCEEDED ∧
    (runRecord j0Sample envCancelLate).status ≠ .CANCELED := by
  refine ⟨rfl, by decide, rfl, rfl, ?_⟩
  rw [show (runRecord j0Sample envCancelLate).status = .SUCCEEDED from rfl]
  decide

/-- Every stage-boundary update leaves status and error alone. -/
theorem stageUps_fields : ∀ u ∈ stageUps, u.status = none ∧ u.error_message = none := by
  decide

/-- Folding updates that never touch `error_message` preserves a cleared
error. -/
theorem foldl_error_none : ∀ (l : List JobUpdate) (j : JobRecord), j.error_message = none →
    (∀ u ∈ l, u.error_message = none) → (l.foldl applyUpdate j).error_message = none := by
  intro l
  induction l with
  | nil => intro j hj _; exact hj
  | cons u us ih =>
    intro j hj hl
    have hu := hl u (List.mem_cons_self _ _)
    refine ih _ ?_ (fun v hv => hl v (List.mem_cons_of_mem _ hv))
    simp [applyUpdate, hu, hj]

/-- C3 (amended): a cancel flag that is read true at a reachable
checkpoint `k ≤ 6` makes the runner persist CANCELED / DONE / 100 with
no error message, and the trace stops at the cancel update (no stage
beyond the checkpoint ever runs); cancelling a job already in a terminal
status changes nothing and returns its existing status. -/
theorem cancel_checkpoint_semantics (env : Env) (j0 : JobRecord) (k : Nat)
    (hcf : env.cancelFrom = some k) (hk : k ≤ 6)
    (hing : 1 ≤ k → ∃ ing, env.ingestion = .ok ing)
    (hpl : 2 ≤ k → env.planner = .ok ()) :
    (runRecord j0 env).status = .CANCELED ∧
    (runRecord j0 env).current_stage = "DONE" ∧
    (runRecord j0 env).progress = 100 ∧
    (runRecord j0 env).error_message = none ∧
    (processJob env).updates = startUpdate :: stageUps.take (k - 1) ++ [cancelUpdate] ∧
    (∀ j : JobRecord, j.status.isTerminal = true → cancel_job j = (j, j.status)) := by
  have hterm : ∀ j : JobRecord, j.status.isTerminal = true → cancel_job j = (j, j.status) := by
    intro j h
    have hstat : j.status = .SUCCEEDED ∨ j.status = .FAILED ∨ j.status = .PARTIAL_SUCCESS
        ∨ j.status = .CANCELED := by
      cases hs : j.status <;> simp [hs, Status.isTerminal] at h ⊢
    unfold cancel_job
    rw [if_pos hstat]
  have htrace : (processJob env).updates
      = startUpdate :: stageUps.take (k - 1) ++ [cancelUpdate] := by
    interval_cases k
    · unfold processJob
      simp [Env.cancelAt, hcf, stageUps]
    · obtain ⟨ing, hi⟩ := hing (by omega)
      unfold processJob
      simp [Env.cancelAt, hcf, hi, stageUps]
    · obtain ⟨ing, hi⟩ := hing (by omega)
      have hp := hpl (by omega)
      unfold processJob
      simp [Env.cancelAt, hcf, hi, hp, stageUps]
    · obtain ⟨ing, hi⟩ := hing (by omega)
      have hp := hpl (by omega)
      unfold processJob
      simp [Env.cancelAt, hcf, hi, hp, stageUps]
    · obtain ⟨ing, hi⟩ := hing (by omega)
      have hp := hpl (by omega)
      unfold processJob
      simp [Env.cancelAt, hcf, hi, hp, stageUps]
    · obtain ⟨ing, hi⟩ := hing (by omega)
      have hp := hpl (by omega)
      unfold processJob
      simp [Env.cancelAt, hcf, hi, hp, stageUps]
    · obtain ⟨ing, hi⟩ := hing (by omega)
      have hp := hpl (by omega)
      unfold processJob
      simp [Env.cancelAt, hcf, hi, hp, stageUps]
  have hrec : runRecord j0 env
      = applyUpdate ((stageUps.take (k - 1)).foldl applyUpdate
          (applyUpdate j0 startUpdate)) cancelUpdate := by
    unfold runRecord
    rw [htrace]
    rw [show startUpdate :: stageUps.take (k - 1) ++ [cancelUpdate]
        = (startUpdate :: stageUps.take (k - 1)) ++ [cancelUpdate] from rfl]
    rw [List.foldl_append]
    rfl
  refine ⟨?_, ?_, ?_, ?_, htrace, hterm⟩
  · rw [hrec]; rfl
  · rw [hrec]; rfl
  · rw [hrec]; rfl
  · rw [hrec]
    show ((stageUps.take (k - 1)).foldl applyUpdate
        (applyUpdate j0 startUpdate)).error_message = none
    exact foldl_error_none _ _ rfl
      (fun u hu => (stageUps_fields u (List.take_subset _ _ hu)).2)

/-- Witness for `cancel_checkpoint_semantics`: cancellation observed at
checkpoint 2 ends the concrete run CANCELED. -/
theorem cancel_checkpoint_semantics_witness :
    (runRecord j0Sample { envBase with cancelFrom := some 2 }).status = .CANCELED :=
  (cancel_checkpoint_semantics { envBase with cancelFrom := some 2 } j0Sample 2
    rfl (by omega) (fun _ => ⟨ingSample, rfl⟩) (fun _ => rfl)).1

/-- C7 counterexample: for an 800x600 thumbnail the reviewer's failure
entry is exactly `thumbnail resolution mismatch (expected 1280x720)` —
it names the file and the expected size but not the actual size; the
actual size appears only in the report's [FAIL] line. -/
theorem thumbnail_failure_no_actual_size_cex :
    (runReviewer fsC7 ["thumbnail"] [] []).2
      = ["thumbnail resolution mismatch (expected 1280x720)"] ∧
    countOccs "800" "thumbnail resolution mismatch (expected 1280x720)" = 0 ∧
    "- [FAIL] thumbnail size is (800, 600)" ∈ (runReviewer fsC7 ["thumbnail"] [] []).1 := by
  refine ⟨rfl, rfl, ?_⟩
  rw [show (runReviewer fsC7 ["thumbnail"] [] []).1
      = ["# review-report.md", "", "## 상태 요약", "- 현재 실패 수: 0", "- 경고 수: 0", "",
         "## 필수 산출물 검증", "- [OK] brief.md", "- [OK] visuals/thumbnail.png",
         "- [FAIL] thumbnail size is (800, 600)", "", "## 실패/누락",
         "- thumbnail resolution mismatch (expected 1280x720)"] from rfl]
  decide

/-- C7 (amended): the reviewer's structural checks.  A mis-sized
thumbnail yields a failure naming the file (with the expected size) plus
a report FAIL line carrying the actual size; fewer than two chart PNGs
yield a failure stating the actual count; each probed shorts clip that is
not vertical (or too long) contributes a named failure, and an
unprobeable clip is downgraded to a [WARN] report line with no failure. -/
theorem reviewer_checks (fs : ReviewFS) (targets failures warnings : List String)
    (w h : Nat) (d : ℚ) (n : String) (c : String × Option (Nat × Nat × ℚ)) :
    (targets.contains "thumbnail" = true → fs.visualsDirExists = true →
      fs.thumbSize = some (w, h) → (w, h) ≠ (1280, 720) →
      "thumbnail resolution mismatch (expected 1280x720)"
          ∈ (runReviewer fs targets failures warnings).2 ∧
        s!"- [FAIL] thumbnail size is ({w}, {h})"
          ∈ (runReviewer fs targets failures warnings).1) ∧
    (targets.contains "chart" = true → fs.chartsDirExists = true →
      fs.chartFiles.length < 2 →
      s!"charts count mismatch ({fs.chartFiles.length})"
        ∈ (runReviewer fs targets failures warnings).2) ∧
    (targets.contains "shorts-videos" = true → fs.shortsDirExists = true →
      c ∈ fs.shortsClips →
      (∀ x ∈ (clipCheck c).2, x ∈ (runReviewer fs targets failures warnings).2) ∧
      (∀ x ∈ (clipCheck c).1, x ∈ (runReviewer fs targets failures warnings).1)) ∧
    (¬ (h > w ∧ w ≥ 720) →
      clipCheck (n, some (w, h, d)) = ([s!"- [FAIL] {n} resolution={w}x{h}"],
        [n ++ " is not vertical video"])) ∧
    ((h > w ∧ w ≥ 720) → d > (121 : ℚ) / 2 →
      clipCheck (n, some (w, h, d)) = ([s!"- [FAIL] {n} duration={d}"],
        [n ++ " duration exceeds 60s"])) ∧
    (clipCheck (n, none) = (["- [WARN] ffprobe unavailable or failed: " ++ n], [])) := by
  refine ⟨?_, ?_, ?_, ?_, ?_, ?_⟩
  · intro hct hvd hth hsz
    have hct' : "thumbnail" ∈ targets := by simpa using hct
    have hm2 : "thumbnail resolution mismatch (expected 1280x720)"
        ∈ (visualSection fs targets).2 := by
      unfold visualSection
      simp [hct', hvd, hth, hsz]
    have hm1 : s!"- [FAIL] thumbnail size is ({w}, {h})"
        ∈ (visualSection fs targets).1 := by
      unfold visualSection
      simp [hct', hvd, hth, hsz]
    constructor
    · unfold runReviewer
      simp only [List.mem_append]
      tauto
    · unfold runReviewer
      simp only [List.mem_append]
      tauto
  · intro hcc hcd hcount
    have hcc' : "chart" ∈ targets := by simpa using hcc
    have hm2 : s!"charts count mismatch ({fs.chartFiles.length})"
        ∈ (chartSection fs targets).2 := by
      unfold chartSection
      simp [hcc', hcd, hcount]
    unfold runReviewer
    simp only [List.mem_append]
    tauto
  · intro hsv hsd hc
    have hm2 : ∀ x ∈ (clipCheck c).2, x ∈ (shortsSection fs targets).2 := by
      intro x hx
      unfold shortsSection
      rw [hsv, hsd]
      simp only [Bool.and_self, if_true]
      exact List.mem_flatten.mpr
        ⟨(clipCheck c).2, List.mem_map_of_mem _ (List.mem_map_of_mem _ hc), hx⟩
    have hm1 : ∀ x ∈ (clipCheck c).1, x ∈ (shortsSection fs targets).1 := by
      intro x hx
      unfold shortsSection
      rw [hsv, hsd]
      simp only [Bool.and_self, if_true]
      exact List.mem_flatten.mpr
        ⟨(clipCheck c).1, List.mem_map_of_mem _ (List.mem_map_of_mem _ hc), hx⟩
    constructor
    · intro x hx
      have := hm2 x hx
      unfold runReviewer
      simp only [List.mem_append]
      tauto
    · intro x hx
      have := hm1 x hx
      unfold runReviewer
      simp only [List.mem_append]
      tauto
  · intro hnv
    unfold clipCheck
    simp [hnv]
  · intro hv hd
    unfold clipCheck
    simp only
    rw [if_neg (by simpa using hv), if_pos hd]
  · rfl

/-- Witness for `reviewer_checks` at the 800x600-thumbnail tree. -/
theorem reviewer_checks_witness :
    "thumbnail resolution mismatch (expected 1280x720)"
      ∈ (runReviewer fsC7 ["thumbnail"] [] []).2 :=
  ((reviewer_checks fsC7 ["thumbnail"] [] [] 800 600 0 "clip" ("clip", none)).1
    rfl rfl rfl (by decide)).1

/-! ### Lemmas for the key-message extraction -/

/-- `infixB` decides substring occurrence. -/
theorem infixB_iff (p : List Char) : ∀ l, infixB p l = true ↔ p <:+: l := by
  intro l
  induction l with
  | nil => simp [infixB, List.isEmpty_iff, List.infix_nil]
  | cons c rest ih =>
    unfold infixB
    rw [Bool.or_eq_true, ih, List.isPrefixOf_iff_prefix, List.infix_cons_iff]

/-- A prefix of an appended list lies in the left part or reaches into the
right part with one of its chars. -/
theorem prefix_append_cases {p b : List Char} :
    ∀ {a : List Char}, p <+: a ++ b → p <+: a ∨ ∃ ch ∈ p, ch ∈ b := by
  intro a
  induction a generalizing p with
  | nil =>
    intro h
    cases p with
    | nil => exact Or.inl List.nil_prefix
    | cons ch ps => exact Or.inr ⟨ch, List.mem_cons_self _ _, h.subset (List.mem_cons_self _ _)⟩
  | cons x a' ih =>
    intro h
    cases p with
    | nil => exact Or.inl List.nil_prefix
    | cons q qs =>
      rw [List.cons_append, List.cons_prefix_cons] at h
      obtain ⟨rfl, h2⟩ := h
      rcases ih h2 with h3 | ⟨ch, hm, hb⟩
      · exact Or.inl (List.cons_prefix_cons.mpr ⟨rfl, h3⟩)
      · exact Or.inr ⟨ch, List.mem_cons_of_mem _ hm, hb⟩

/-- An infix of an appended list lies in the left part or reaches into
the right part with one of its chars. -/
theorem infix_append_cases {p b : List Char} :
    ∀ {a : List Char}, p <:+: a ++ b → p <:+: a ∨ ∃ ch ∈ p, ch ∈ b := by
  intro a
  induction a generalizing p with
  | nil =>
    intro h
    cases p with
    | nil => exact Or.inl (List.infix_refl _)
    | cons ch ps => exact Or.inr ⟨ch, List.mem_cons_self _ _, h.subset (List.mem_cons_self _ _)⟩
  | cons x a' ih =>
    intro h
    rw [List.cons_append, List.infix_cons_iff] at h
    rcases h with h | h
    · rcases prefix_append_cases (p := p) (b := b) (a := x :: a') h with h2 | h2
      · exact Or.inl h2.isInfix
      · exact Or.inr h2
    · rcases ih h with h2 | h2
      · exact Or.inl (List.infix_cons_iff.mpr (Or.inr h2))
      · exact Or.inr h2

/-- Unfolding equation for `splitWsAll` on a cons cell. -/
theorem splitWsAll_cons (c : Char) (rest : List Char) :
    splitWsAll (c :: rest) = if c.isWhitespace then [] :: splitWsAll rest
      else (c :: (splitWsAll rest).headI) :: (splitWsAll rest).tail := rfl

/-- `splitWsAll` never returns the empty list. -/
theorem splitWsAll_ne_nil (l : List Char) : splitWsAll l ≠ [] := by
  cases l with
  | nil => simp [splitWsAll]
  | cons c rest =>
    unfold splitWsAll
    split <;> simp

/-- Words from `wsWords` are non-empty and whitespace-free. -/
theorem wsWords_facts : ∀ l : List Char, ∀ w ∈ wsWords l,
    w ≠ [] ∧ ∀ ch ∈ w, ch.isWhitespace = false := by
  have key : ∀ l : List Char, ∀ w ∈ splitWsAll l, ∀ ch ∈ w, ch.isWhitespace = false := by
    intro l
    induction l with
    | nil => intro w hw ch hch; simp [splitWsAll] at hw; simp [hw] at hch
    | cons c rest ih =>
      intro w hw ch hch
      unfold splitWsAll at hw
      by_cases hc : c.isWhitespace
      · rw [if_pos hc] at hw
        rcases List.mem_cons.mp hw with rfl | hw
        · simp at hch
        · exact ih w hw ch hch
      · rw [if_neg hc] at hw
        rcases List.mem_cons.mp hw with rfl | hw
        · rcases List.mem_cons.mp hch with rfl | hch2
          · simpa using hc
          · refine ih (splitWsAll rest).headI ?_ ch hch2
            rcases hsp : splitWsAll rest with _ | ⟨w0, ws0⟩
            · exact absurd hsp (splitWsAll_ne_nil rest)
            · simp
        · exact ih w (List.tail_subset _ hw) ch hch
  intro l w hw
  have hmem := List.mem_filter.mp hw
  refine ⟨by simpa using hmem.2, key l w hmem.1⟩

/-- Rebuilding from non-empty whitespace-free words round-trips. -/
theorem wsWords_joinSp : ∀ ws : List (List Char),
    (∀ w ∈ ws, w ≠ [] ∧ ∀ ch ∈ w, ch.isWhitespace = false) →
    wsWords (joinSp ws) = ws := by
  have splitWord : ∀ (w l : List Char), (∀ ch ∈ w, ch.isWhitespace = false) →
      splitWsAll (w ++ l) = (w ++ (splitWsAll l).headI) :: (splitWsAll l).tail := by
    intro w
    induction w with
    | nil =>
      intro l _
      simp only [List.nil_append]
      rcases hsp : splitWsAll l with _ | ⟨w0, ws0⟩
      · exact absurd hsp (splitWsAll_ne_nil l)
      · simp
    | cons c cs ih =>
      intro l hw
      have hc : c.isWhitespace = false := hw c (List.mem_cons_self _ _)
      have ihl := ih l (fun ch hch => hw ch (List.mem_cons_of_mem _ hch))
      simp only [List.cons_append]
      rw [splitWsAll_cons, hc, ihl]
      simp
  intro ws
  induction ws with
  | nil => intro _; rfl
  | cons w ws0 ih =>
    intro hfacts
    have hw := hfacts w (List.mem_cons_self _ _)
    have ihws := ih (fun v hv => hfacts v (List.mem_cons_of_mem _ hv))
    cases ws0 with
    | nil =>
      have h1 : joinSp [w] = w ++ [] := by simp [joinSp]
      show wsWords (joinSp [w]) = [w]
      rw [h1]
      unfold wsWords
      rw [splitWord w [] hw.2]
      simp [splitWsAll, hw.1]
    | cons w1 ws1 =>
      show wsWords (w ++ ' ' :: joinSp (w1 :: ws1)) = w :: w1 :: ws1
      unfold wsWords at ihws ⊢
      rw [splitWord w (' ' :: joinSp (w1 :: ws1)) hw.2]
      have hsp : splitWsAll (' ' :: joinSp (w1 :: ws1))
          = [] :: splitWsAll (joinSp (w1 :: ws1)) := by
        rw [splitWsAll_cons, if_pos (by decide)]
      rw [hsp]
      simp only [List.headI_cons, List.tail_cons, List.append_nil]
      rw [List.filter_cons]
      simp only [ne_eq, decide_not] at ihws
      simp [hw.1, ihws]

/-- Collapsing is idempotent. -/
theorem collapsed_joinSp_wsWords (x : List Char) : collapsed (joinSp (wsWords x)) := by
  unfold collapsed
  rw [wsWords_joinSp (wsWords x) (wsWords_facts x)]

/-- A candidate surviving `_clean_candidate` is non-meta and collapsed. -/
theorem cleanChars_facts {chunk v : List Char} (h : cleanChars chunk = some v) :
    metaChars v = false ∧ collapsed v := by
  unfold cleanChars at h
  simp only [] at h
  split at h
  · exact absurd h (by simp)
  · split at h
    · exact absurd h (by simp)
    · split at h
      · exact absurd h (by simp)
      · split at h
        · exact absurd h (by simp)
        · split at h
          · exact absurd h (by simp)
          · rename_i hmeta
            obtain rfl := Option.some.inj h
            exact ⟨by simpa using hmeta, collapsed_joinSp_wsWords _⟩

/-- The greedy word fit keeps a prefix of the word list. -/
theorem greedyFitGo_take (lim : Nat) :
    ∀ (ws : List (List Char)) (acc : Nat), ∃ k, greedyFitGo lim acc ws = ws.take k := by
  intro ws
  induction ws with
  | nil => intro _; exact ⟨0, rfl⟩
  | cons w rest ih =>
    intro acc
    by_cases hle : (if acc = 0 then w.length else acc + 1 + w.length) ≤ lim
    · obtain ⟨k, hk⟩ := ih (if acc = 0 then w.length else acc + 1 + w.length)
      refine ⟨k + 1, ?_⟩
      show (if (if acc = 0 then w.length else acc + 1 + w.length) ≤ lim then
          w :: greedyFitGo lim (if acc = 0 then w.length else acc + 1 + w.length) rest
        else []) = (w :: rest).take (k + 1)
      rw [if_pos hle, hk]
      rfl
    · refine ⟨0, ?_⟩
      show (if (if acc = 0 then w.length else acc + 1 + w.length) ≤ lim then
          w :: greedyFitGo lim (if acc = 0 then w.length else acc + 1 + w.length) rest
        else []) = (w :: rest).take 0
      rw [if_neg hle]
      rfl

/-- `joinSp (w :: ws)` for a non-empty tail. -/
theorem joinSp_cons_ne (w : List Char) {ws : List (List Char)} (h : ws ≠ []) :
    joinSp (w :: ws) = w ++ ' ' :: joinSp ws := by
  cases ws with
  | nil => exact absurd rfl h
  | cons a b => rfl

/-- Appending on the left preserves the prefix order. -/
theorem prefix_append_left (x : List Char) {a b : List Char} (h : a <+: b) :
    x ++ a <+: x ++ b := by
  obtain ⟨t, rfl⟩ := h
  exact ⟨t, by rw [List.append_assoc]⟩

/-- The join of a taken prefix of words prefixes the join of all words. -/
theorem joinSp_take_prefix : ∀ (ws : List (List Char)) (k : Nat),
    joinSp (ws.take k) <+: joinSp ws := by
  intro ws
  induction ws with
  | nil => intro k; simp [joinSp]
  | cons w rest ih =>
    intro k
    cases k with
    | zero => exact List.nil_prefix
    | succ k =>
      show joinSp (w :: rest.take k) <+: joinSp (w :: rest)
      by_cases hws : rest = []
      · subst hws
        simp
      · by_cases htk : rest.take k = []
        · rw [htk]
          show joinSp [w] <+: joinSp (w :: rest)
          rw [joinSp_cons_ne w hws]
          exact List.prefix_append _ _
        · rw [joinSp_cons_ne w htk, joinSp_cons_ne w hws]
          have h3 := prefix_append_left (w ++ [' ']) (ih k)
          simpa [List.append_assoc] using h3

/-- No meta pattern contains a dot. -/
theorem meta_patterns_no_dot : ∀ p ∈ _META_PATTERNS, '.' ∉ p.data := by decide

/-- Lowercasing maps prefixes to prefixes. -/
theorem lowerChars_prefix {a b : List Char} (h : a <+: b) :
    lowerChars a <+: lowerChars b := by
  obtain ⟨t, rfl⟩ := h
  exact ⟨lowerChars t, by simp [lowerChars]⟩

/-- Appending the `"..."` placeholder to a prefix of a non-meta string
cannot introduce a meta pattern. -/
theorem metaChars_prefix_dots {p v : List Char} (hm : metaChars v = false)
    (hp : p <+: v) : metaChars (p ++ "...".data) = false := by
  by_contra hcon
  rw [Bool.not_eq_false] at hcon
  unfold metaChars at hcon
  obtain ⟨pat, hpat, hinf⟩ := List.any_eq_true.mp hcon
  rw [infixB_iff] at hinf
  have hlow : lowerChars (p ++ "...".data) = lowerChars p ++ "...".data := by
    unfold lowerChars
    rw [List.map_append, show "...".data.map Char.toLower = "...".data from rfl]
  rw [hlow] at hinf
  rcases infix_append_cases hinf with hin | ⟨ch, hchp, hchd⟩
  · have hpre := lowerChars_prefix hp
    have hv : pat.data <:+: lowerChars v := hin.trans hpre.isInfix
    have hmt : metaChars v = true := by
      unfold metaChars
      exact List.any_eq_true.mpr ⟨pat, hpat, (infixB_iff _ _).mpr hv⟩
    rw [hm] at hmt
    exact Bool.false_ne_true hmt
  · have hdot : ch = '.' := by simpa using hchd
    subst hdot
    exact meta_patterns_no_dot pat hpat hchp

/-- Shortening to 120 chars cannot introduce a meta pattern. -/
theorem metaChars_shorten {v : List Char} (hm : metaChars v = false)
    (hc : collapsed v) : metaChars (shortenChars 120 v) = false := by
  unfold shortenChars
  simp only []
  rw [hc]
  by_cases hlen : v.length ≤ 120
  · rw [if_pos hlen]; exact hm
  · rw [if_neg hlen]
    obtain ⟨k, hk⟩ := greedyFitGo_take (120 - 3) (wsWords v) 0
    rw [hk]
    cases htk : (wsWords v).take k with
    | nil => decide
    | cons t ts =>
      show metaChars (joinSp (t :: ts) ++ "...".data) = false
      rw [← htk]
      have hpre : joinSp ((wsWords v).take k) <+: v := by
        conv_rhs => rw [← hc]
        exact joinSp_take_prefix _ _
      exact metaChars_prefix_dots hm hpre

/-- The main selection loop only emits non-meta messages. -/
theorem selectLoop_inv (count : Nat) :
    ∀ (scored : List (Int × Nat × List Char)) (sel used : List (List Char)),
      (∀ x ∈ sel, metaChars x = false) →
      (∀ p ∈ scored, metaChars p.2.2 = false ∧ collapsed p.2.2) →
      ∀ x ∈ (selectLoop count scored sel used).1, metaChars x = false := by
  intro scored
  induction scored with
  | nil => intro sel used hsel _ x hx; exact hsel x hx
  | cons p rest ih =>
    intro sel used hsel hsc x hx
    obtain ⟨s, i, cand⟩ := p
    have hpc := hsc (s, i, cand) (List.mem_cons_self _ _)
    unfold selectLoop at hx
    simp only [] at hx
    by_cases hk : used.contains (lowerChars cand)
    · rw [if_pos hk] at hx
      exact ih sel used hsel (fun q hq => hsc q (List.mem_cons_of_mem _ hq)) x hx
    · rw [if_neg hk] at hx
      have hshort : metaChars (shortenChars 120 cand) = false :=
        metaChars_shorten hpc.1 hpc.2
      have hsel2 : ∀ y ∈ sel ++ [shortenChars 120 cand], metaChars y = false := by
        intro y hy
        rcases List.mem_append.mp hy with hy | hy
        · exact hsel y hy
        · rcases List.mem_singleton.mp hy with rfl
          exact hshort
      by_cases hcnt : count ≤ (sel ++ [shortenChars 120 cand]).length
      · rw [if_pos hcnt] at hx
        exact hsel2 x hx
      · rw [if_neg hcnt] at hx
        exact ih _ _ hsel2 (fun q hq => hsc q (List.mem_cons_of_mem _ hq)) x hx

/-- The backfill loop only emits non-meta messages (it skips meta
candidates itself). -/
theorem backfillLoop_inv (count : Nat) :
    ∀ (cands : List (List Char)) (sel used : List (List Char)),
      (∀ x ∈ sel, metaChars x = false) →
      (∀ c ∈ cands, collapsed c) →
      ∀ x ∈ (backfillLoop count cands sel used).1, metaChars x = false := by
  intro cands
  induction cands with
  | nil => intro sel used hsel _ x hx; exact hsel x hx
  | cons cand rest ih =>
    intro sel used hsel hcol x hx
    have hcc := hcol cand (List.mem_cons_self _ _)
    unfold backfillLoop at hx
    simp only [] at hx
    by_cases hk : used.contains (lowerChars cand)
    · rw [if_pos hk] at hx
      exact ih sel used hsel (fun c hc => hcol c (List.mem_cons_of_mem _ hc)) x hx
    · rw [if_neg hk] at hx
      by_cases hmt : metaChars cand = true
      · rw [if_pos hmt] at hx
        exact ih sel used hsel (fun c hc => hcol c (List.mem_cons_of_mem _ hc)) x hx
      · rw [if_neg hmt] at hx
        have hshort : metaChars (shortenChars 120 cand) = false :=
          metaChars_shorten (Bool.not_eq_true _ ▸ hmt) hcc
        have hsel2 : ∀ y ∈ sel ++ [shortenChars 120 cand], metaChars y = false := by
          intro y hy
          rcases List.mem_append.mp hy with hy | hy
          · exact hsel y hy
          · rcases List.mem_singleton.mp hy with rfl
            exact hshort
        by_cases hcnt : count ≤ (sel ++ [shortenChars 120 cand]).length
        · rw [if_pos hcnt] at hx
          exact hsel2 x hx
        · rw [if_neg hcnt] at hx
          exact ih _ _ hsel2 (fun c hc => hcol c (List.mem_cons_of_mem _ hc)) x hx

/-- `chunkStep` preserves an invariant established by `cleanChars`. -/
theorem chunkStep_inv {R : List Char → Prop}
    (hR : ∀ chunk v, cleanChars chunk = some v → R v) :
    ∀ (chunks : List (List Char)) (st : List (List Char) × List (List Char)),
      (∀ x ∈ st.2, R x) → ∀ x ∈ (chunks.foldl chunkStep st).2, R x := by
  intro chunks
  induction chunks with
  | nil => intro st hst x hx; exact hst x hx
  | cons chunk rest ih =>
    intro st hst x hx
    rw [List.foldl_cons] at hx
    refine ih (chunkStep st chunk) ?_ x hx
    intro y hy
    unfold chunkStep at hy
    cases hcl : cleanChars chunk with
    | none =>
      rw [hcl] at hy
      exact hst y hy
    | some cand =>
      rw [hcl] at hy
      simp only [] at hy
      by_cases hk : st.1.contains (lowerChars cand)
      · rw [if_pos hk] at hy
        exact hst y hy
      · rw [if_neg hk] at hy
        rcases List.mem_append.mp hy with hy | hy
        · exact hst y hy
        · rcases List.mem_singleton.mp hy with rfl
          exact hR chunk y hcl

/-- Every collected candidate is non-meta and collapsed. -/
theorem collectChars_inv (text : List Char) :
    ∀ c ∈ collectChars text, metaChars c = false ∧ collapsed c := by
  have hR : ∀ chunk v, cleanChars chunk = some v →
      metaChars v = false ∧ collapsed v := fun _ _ h => cleanChars_facts h
  have hline : ∀ (lines : List (List Char)) (st : List (List Char) × List (List Char)),
      (∀ x ∈ st.2, metaChars x = false ∧ collapsed x) →
      ∀ x ∈ (lines.foldl collectStep st).2, metaChars x = false ∧ collapsed x := by
    intro lines
    induction lines with
    | nil => intro st hst x hx; exact hst x hx
    | cons line rest ih =>
      intro st hst x hx
      rw [List.foldl_cons] at hx
      refine ih (collectStep st line) ?_ x hx
      intro y hy
      unfold collectStep at hy
      simp only [] at hy
      by_cases h0 : trimChars line = []
      · rw [if_pos h0] at hy
        exact hst y hy
      · rw [if_neg h0] at hy
        by_cases h1 : stripBulletNum (trimChars line) = []
        · rw [if_pos h1] at hy
          exact hst y hy
        · rw [if_neg h1] at hy
          exact chunkStep_inv hR _ st hst y hy
  intro c hc
  exact hline _ ([], []) (by intro x hx; simp at hx) c hc

/-- Enumerated pairs carry elements of the underlying list. -/
theorem enumFrom_snd_mem : ∀ (l : List (List Char)) (n : Nat)
    (q : Nat × List Char), q ∈ enumFrom n l → q.2 ∈ l := by
  intro l
  induction l with
  | nil => intro n q hq; simp [enumFrom] at hq
  | cons c cs ih =>
    intro n q hq
    unfold enumFrom at hq
    rcases List.mem_cons.mp hq with rfl | hq
    · exact List.mem_cons_self _ _
    · exact List.mem_cons_of_mem _ (ih (n + 1) q hq)

/-- A positive score implies the candidate is non-meta. -/
theorem score_pos_not_meta {cand : List Char} {kw : List (List Char)}
    (h : 0 < scoreChars cand kw) : metaChars cand = false := by
  by_cases hm : metaChars cand = true
  · unfold scoreChars at h
    rw [hm] at h
    simp at h
  · exact Bool.not_eq_true _ ▸ hm

/-- Every element surviving scoring and sorting is a non-meta collapsed
candidate of the pool. -/
theorem scored_all (kw : List (List Char)) (cands : List (List Char))
    (hc : ∀ c ∈ cands, metaChars c = false ∧ collapsed c) (n : Nat) :
    ∀ p ∈ sortScored ((enumFrom n cands).filterMap fun q =>
        let s := scoreChars q.2 kw
        if 0 < s then some (s, q.1, q.2) else none),
      metaChars p.2.2 = false ∧ collapsed p.2.2 := by
  intro p hp
  unfold sortScored at hp
  have hp2 := (List.perm_insertionSort scoredRel _).mem_iff.mp hp
  obtain ⟨q, hq, hfq⟩ := List.mem_filterMap.mp hp2
  simp only [] at hfq
  by_cases h0 : 0 < scoreChars q.2 kw
  · rw [if_pos h0] at hfq
    obtain rfl := Option.some.inj hfq
    exact hc q.2 (enumFrom_snd_mem cands n q hq)
  · rw [if_neg h0] at hfq
    exact absurd hfq (by simp)

set_option maxRecDepth 4000 in
/-- The extraction never emits a meta candidate, whatever the inputs. -/
theorem extractChars_no_meta (title text : List Char) (count : Nat) :
    ∀ mc ∈ extractChars title text count, metaChars mc = false := by
  intro mc hmc
  unfold extractChars at hmc
  simp only [] at hmc
  have hcands := collectChars_inv text
  have hsorted := scored_all (titleKeywordsChars title) (collectChars text) hcands 0
  split at hmc
  · split at hmc
    · rcases List.mem_singleton.mp hmc with rfl
      decide
    · exact backfillLoop_inv count (collectChars text) _ _
        (selectLoop_inv count _ [] [] (by intro x hx; simp at hx) hsorted)
        (fun c hc => (hcands c hc).2) mc hmc
  · split at hmc
    · rcases List.mem_singleton.mp hmc with rfl
      decide
    · exact selectLoop_inv count _ [] [] (by intro x hx; simp at hx) hsorted mc hmc

set_option maxRecDepth 100000 in
/-- C8: (1) key-message extraction never returns a candidate matching a
meta pattern, for any title, text and count (backfill included); (2) on
the mixed meta/domain scenario it returns exactly the three domain
sentences, in original order, and none of the leaked prompt/JSON text;
(3) a candidate with at least two priority-term hits strictly outscores
an otherwise comparable candidate (same length, digit presence, title
hits and instruction look) with none; (4) the candidate sort orders by
descending score with original-index tie-break (`scoredRel`), as a
permutation of its input. -/
theorem key_message_extraction_contract :
    (∀ (title text : String) (count : Nat),
      ∀ m ∈ _extract_key_messages title text count, _is_meta_candidate m = false)
    ∧ _extract_key_messages sceneTitle sceneText 5 =
        ["미국 경기 둔화 신호가 뚜렷해지며 반도체 수출 증가율이 2분기 4%로 하락했다.",
         "환율 변동성 확대에 대비해 수출 기업은 분기별 환헤지 비율을 재조정해야 한다.",
         "단가 인상보다 재고 회전율 개선이 영업이익 방어에 더 효과적이라는 분석이 제시됐다."]
    ∧ (∀ (a b : List Char) (kw : List (List Char)),
        a.length = b.length →
        a.any Char.isDigit = b.any Char.isDigit →
        titleHits kw (lowerChars a) = titleHits kw (lowerChars b) →
        looksLikeInstruction a = looksLikeInstruction b →
        metaChars a = false → metaChars b = false →
        2 ≤ priorityHits a → priorityHits b = 0 →
        scoreChars b kw < scoreChars a kw)
    ∧ (∀ l : List (Int × Nat × List Char),
        (sortScored l).Sorted scoredRel ∧ (sortScored l).Perm l) := by
  refine ⟨?_, ?_, ?_, ?_⟩
  · intro title text count m hm
    obtain ⟨mc, hmc, rfl⟩ := List.mem_map.mp hm
    exact extractChars_no_meta title.data text.data count mc hmc
  · rfl
  · intro a b kw hlen hdig hth hinstr hma hmb hpa hpb
    have h2 : (2 : Int) ≤ (priorityHits a : Int) := by exact_mod_cast hpa
    have h20 : (20 : Int) ≤ min ((priorityHits a : Int) * 10) 40 := by omega
    unfold scoreChars
    simp only []
    rw [hma, hmb]
    simp only [Bool.false_eq_true, if_false]
    rw [hlen, hdig, hth, hinstr, hpb]
    simp only [Nat.cast_zero, zero_mul]
    have hz : min (0 : Int) 40 = 0 := by norm_num
    rw [hz]
    linarith [h20]
  · intro l
    exact ⟨List.sorted_insertionSort scoredRel l, List.perm_insertionSort scoredRel l⟩

/-- Witness for C8: the first returned scenario message is the first
domain sentence and is non-meta, and a concrete two-priority-hit
candidate outscores a comparable zero-hit one. -/
theorem key_message_extraction_contract_witness :
    _is_meta_candidate
      "미국 경기 둔화 신호가 뚜렷해지며 반도체 수출 증가율이 2분기 4%로 하락했다." = false
    ∧ scoreChars "가나다라마".data [] < scoreChars "핵심 전략".data [] :=
  ⟨key_message_extraction_contract.1 sceneTitle sceneText 5 _
      (by rw [key_message_extraction_contract.2.1]; exact List.mem_cons_self _ _),
   key_message_extraction_contract.2.2.1 "핵심 전략".data "가나다라마".data []
      (by decide) (by decide) rfl (by decide) (by decide) (by decide)
      (by decide) (by decide)⟩

end CMT
